import Mathlib

/-!
# Verification of the beryllium compiler core

A shallow embedding of the beryllium compiler (lexer in `src/tokenize.rs`,
parser in `src/parser.rs`, type registry in `src/type_registry.rs`, codegen
context in `src/context.rs`, x86 code generator in `src/codegen/x86.rs`),
together with theorems settling the specification claims about it.

Conventions of the embedding:
* Rust `u64` counters are modelled as `Nat` (no claim exercises overflow or
  underflow of these counters).
* `HashMap` fields are modelled as association lists in which `insert`
  prepends and lookup takes the first match, which gives exactly the
  observable `insert`/`get` behaviour (newest binding wins).
* A Rust `Vec` used as a stack (top at the end) is modelled as a `List`
  with the top at the head.
* Fallible Rust code returns `Except`/`Option`; a Rust `panic!` arising
  from `Option::expect`/`unwrap` is modelled by a dedicated failure
  constructor (or `none`), since it aborts the whole computation.
-/

namespace Beryllium

/-- `Location` from `src/tokenize.rs`: byte index (0-based), line and column
(1-based). -/
structure Location where
  index : Nat
  line : Nat
  column : Nat
deriving DecidableEq, Repr

/-- `Location::default()`: index 0, line 1, column 1. -/
def Location.start : Location := ⟨0, 1, 1⟩

/-- `Keyword` from `src/tokenize.rs`. -/
inductive Keyword where
  | Exit
  | Let | Mut
  | If | Else
  | Loop | While
  | Break | Continue
  | Fn | Return
deriving DecidableEq, Repr

/-- `Symbol` from `src/tokenize.rs`. -/
inductive Symbol where
  | LParen | RParen
  | LBrace | RBrace
  | LAngle | RAngle
  | Semi
  | Comma
  | Equals
  | Plus | Minus | Star | Slash | Percent
  | PlusEq | MinusEq | StarEq | SlashEq | PercentEq
  | Equality | NonEquality
  | GreaterEqual | LesserEqual
deriving DecidableEq, Repr

/-- `TokenData` from `src/tokenize.rs`. -/
inductive TokenData where
  | identifier (s : String)
  | integerLiteral (s : String)
  | keyword (k : Keyword)
  | symbol (s : Symbol)
deriving DecidableEq, Repr

/-- `Token` from `src/tokenize.rs`. -/
structure Token where
  data : TokenData
  location : Location
deriving DecidableEq, Repr

/-- `TokenizerError` from `src/tokenize.rs`. -/
inductive TokenizerError where
  | UnrecognizedCharacter (c : Char)
deriving DecidableEq, Repr

/-- Modelled from the Rust standard library: `char::is_numeric` (true on the
Unicode categories Nd, Nl and No).  The model is exact for code points below
0x100: in that range the numeric characters are the ASCII digits `[0-9]`
together with U+00B2, U+00B3, U+00B9 (superscript digits) and U+00BC,
U+00BD, U+00BE (vulgar fractions). -/
def rsIsNumeric (c : Char) : Bool :=
  c.isDigit || c.toNat == 0xB2 || c.toNat == 0xB3 || c.toNat == 0xB9 ||
    c.toNat == 0xBC || c.toNat == 0xBD || c.toNat == 0xBE

/-- Modelled from the Rust standard library: `char::is_alphabetic` (true on
the Unicode Alphabetic property).  The model is exact for code points below
0x100: in that range the alphabetic characters are the ASCII letters
together with U+00AA, U+00B5, U+00BA and U+00C0..U+00FF minus the two signs
U+00D7 and U+00F7. -/
def rsIsAlphabetic (c : Char) : Bool :=
  c.isAlpha || c.toNat == 0xAA || c.toNat == 0xB5 || c.toNat == 0xBA ||
    (0xC0 ≤ c.toNat && c.toNat ≤ 0xFF && c.toNat != 0xD7 && c.toNat != 0xF7)

/-- Modelled from the Rust standard library: `char::is_alphanumeric`, which
is `is_alphabetic || is_numeric`. -/
def rsIsAlphanumeric (c : Char) : Bool :=
  rsIsAlphabetic c || rsIsNumeric c

/-- Modelled from the Rust standard library: `char::is_whitespace` (the
Unicode White_Space property), exact below 0x100: U+0009..U+000D, U+0020,
U+0085 and U+00A0. -/
def rsIsWhitespace (c : Char) : Bool :=
  (0x09 ≤ c.toNat && c.toNat ≤ 0x0D) || c.toNat == 0x20 ||
    c.toNat == 0x85 || c.toNat == 0xA0

/-- `TokenStream` from `src/tokenize.rs`: the remaining source characters
(`VecDeque<char>`, front at the head) and the current location. -/
structure TokenStream where
  source : List Char
  location : Location
deriving DecidableEq, Repr

/-- The location update performed by `TokenStream::consume` for one
character: advance `index` and `column`; on a newline also advance `line`
and reset `column` to 1. -/
def consumeChar (loc : Location) (c : Char) : Location :=
  let loc := { loc with index := loc.index + 1, column := loc.column + 1 }
  if c = '\n' then { loc with line := loc.line + 1, column := 1 } else loc

/-- The character class accepted by the accumulation loop of
`TokenStream::lex_identifier`: alphanumeric or underscore. -/
def isIdentChar (c : Char) : Bool :=
  rsIsAlphanumeric c || c = '_'

/-- The keyword table of `TokenStream::lex_identifier`. -/
def classifyWord (w : String) : TokenData :=
  if w = "exit" then .keyword .Exit
  else if w = "let" then .keyword .Let
  else if w = "mut" then .keyword .Mut
  else if w = "if" then .keyword .If
  else if w = "else" then .keyword .Else
  else if w = "loop" then .keyword .Loop
  else if w = "while" then .keyword .While
  else if w = "break" then .keyword .Break
  else if w = "continue" then .keyword .Continue
  else if w = "fn" then .keyword .Fn
  else if w = "return" then .keyword .Return
  else .identifier w

/-- `TokenStream::lex_identifier`: accumulate characters while alphanumeric
or `_` (the `while let` loop is `takeWhile`/`dropWhile`), classify the
buffer against the keyword table, and attach the location of the first
character. -/
def TokenStream.lexIdentifier (st : TokenStream) : Token × TokenStream :=
  let buffer := st.source.takeWhile isIdentChar
  let rest := st.source.dropWhile isIdentChar
  (⟨classifyWord (String.mk buffer), st.location⟩,
   ⟨rest, buffer.foldl consumeChar st.location⟩)

/-- `TokenStream::lex_number`: accumulate characters while numeric, keep
the run as text. -/
def TokenStream.lexNumber (st : TokenStream) : Token × TokenStream :=
  let buffer := st.source.takeWhile rsIsNumeric
  let rest := st.source.dropWhile rsIsNumeric
  (⟨.integerLiteral (String.mk buffer), st.location⟩,
   ⟨rest, buffer.foldl consumeChar st.location⟩)

/-- The one-character lookahead of `TokenStream::lex_symbol`: if the next
character is `=`, consume it and produce `eqSym`, otherwise produce
`plainSym` (a missing next character is `unwrap_or(0 as char)`, which is
not `=`). -/
def TokenStream.matchEq (st : TokenStream) (eqSym plainSym : Symbol) :
    Symbol × TokenStream :=
  match st.source with
  | c :: rest =>
      if c = '=' then (eqSym, ⟨rest, consumeChar st.location c⟩)
      else (plainSym, st)
  | [] => (plainSym, st)

/-- `TokenStream::lex_symbol`: consume the lead character and dispatch,
with the one-character `=` lookahead for the two-character symbols; `!`
without `=` and any unknown character are `UnrecognizedCharacter`. -/
def TokenStream.lexSymbol (st : TokenStream) :
    Except TokenizerError (Symbol × TokenStream) :=
  match st.source with
  | [] => .error (.UnrecognizedCharacter (Char.ofNat 0))
  | c :: rest =>
    let st1 : TokenStream := ⟨rest, consumeChar st.location c⟩
    if c = '(' then .ok (.LParen, st1)
    else if c = ')' then .ok (.RParen, st1)
    else if c = '{' then .ok (.LBrace, st1)
    else if c = '}' then .ok (.RBrace, st1)
    else if c = '<' then .ok (st1.matchEq .LesserEqual .LAngle)
    else if c = '>' then .ok (st1.matchEq .GreaterEqual .RAngle)
    else if c = '!' then
      match st1.source with
      | d :: rest2 =>
          if d = '=' then .ok (.NonEquality, ⟨rest2, consumeChar st1.location d⟩)
          else .error (.UnrecognizedCharacter '!')
      | [] => .error (.UnrecognizedCharacter '!')
    else if c = '=' then .ok (st1.matchEq .Equality .Equals)
    else if c = ';' then .ok (.Semi, st1)
    else if c = ',' then .ok (.Comma, st1)
    else if c = '+' then .ok (st1.matchEq .PlusEq .Plus)
    else if c = '-' then .ok (st1.matchEq .MinusEq .Minus)
    else if c = '*' then .ok (st1.matchEq .StarEq .Star)
    else if c = '/' then .ok (st1.matchEq .SlashEq .Slash)
    else if c = '%' then .ok (st1.matchEq .PercentEq .Percent)
    else .error (.UnrecognizedCharacter c)

/-- The body of `<TokenStream as FallibleIterator>::next`: skip whitespace
(the `while`/`continue` loop is the structural recursion), then dispatch on
the first remaining character; `Ok(None)` at end of input. -/
def lexNext : (source : List Char) → (loc : Location) →
    Except TokenizerError (Option (Token × TokenStream))
  | [], _ => .ok none
  | c :: rest, loc =>
    if rsIsAlphabetic c || c = '_' then
      .ok (some (TokenStream.lexIdentifier ⟨c :: rest, loc⟩))
    else if rsIsNumeric c then
      .ok (some (TokenStream.lexNumber ⟨c :: rest, loc⟩))
    else if rsIsWhitespace c then
      lexNext rest (consumeChar loc c)
    else
      match TokenStream.lexSymbol ⟨c :: rest, loc⟩ with
      | .error e => .error e
      | .ok (s, st1) => .ok (some (⟨.symbol s, loc⟩, st1))

/-- `TokenStream::next` packaged on the stream state. -/
def TokenStream.next (st : TokenStream) :
    Except TokenizerError (Option (Token × TokenStream)) :=
  lexNext st.source st.location

/-- `Tokenize::tokenize` for strings: a fresh stream over the characters,
at the default location. -/
def tokenize (s : String) : TokenStream :=
  ⟨s.data, Location.start⟩

end Beryllium

namespace Beryllium

/-- `Param` from the current `ast.rs` (as used by `src/parser.rs` and
`src/type_registry.rs`): a parameter has only a name. -/
structure Param where
  name : String
deriving DecidableEq, Repr

mutual

/-- `Expr` from the current `ast.rs`, reconstructed exactly from its uses in
`src/parser.rs` and `src/codegen/x86.rs` (the `ast.rs` in the snapshot is an
earlier revision of the file without these variants). -/
inductive Expr where
  | Add (a b : Expr)
  | Sub (a b : Expr)
  | Mul (a b : Expr)
  | Div (a b : Expr)
  | Mod (a b : Expr)
  | AddAssign (identifier : String) (value : Expr)
  | SubAssign (identifier : String) (value : Expr)
  | MulAssign (identifier : String) (value : Expr)
  | DivAssign (identifier : String) (value : Expr)
  | ModAssign (identifier : String) (value : Expr)
  | Equality (a b : Expr)
  | NonEquality (a b : Expr)
  | Less (a b : Expr)
  | LessEq (a b : Expr)
  | Greater (a b : Expr)
  | GreaterEq (a b : Expr)
  | IntegerLiteral (s : String)
  | Identifier (s : String)
  | FunctionCall (name : String) (args : List Expr)
  | Block (stmts : List Statement)
  | If (check : Expr) (body : Statement) (els : Option Statement)
  | Loop (body : Statement)
  | While (check : Expr) (body : Statement)

/-- `Statement` from the current `ast.rs`, reconstructed exactly from its
uses in `src/parser.rs` and `src/codegen/x86.rs`.  `ExprStmt` is the
`Statement::Expr` variant. -/
inductive Statement where
  | Exit (value : Expr)
  | Let (identifier : String) (value : Expr) (is_mutable : Bool)
  | ExprStmt (e : Expr)
  | Break
  | Continue
  | Return (value : Expr)

end

/-- `Item` from the current `ast.rs`: only `Function`. -/
inductive Item where
  | Function (name : String) (params : List Param) (body : Statement)

/-- `Program` from the current `ast.rs`: `Program(pub Vec<Item>)`. -/
structure Program where
  items : List Item

/-- Modelled from the spec: `Expr::map_left`, used by the parser's
left-leaning fixup (`src/parser.rs` lines 301-365).  The function lives in
the current `ast.rs`, which is missing from the snapshot.  Spec §4.2: "the
parser rewrites `lhs OP (inner_lhs OP' inner_rhs)` into `(lhs OP inner_lhs)
OP' inner_rhs` by replacing the tail's left child" — so `map_left f`
replaces the left child of a top-level binary arithmetic node with its
image under `f`.  (The parser only calls it on `Add`/`Sub` respectively
`Mul`/`Div`/`Mod` nodes, so the behaviour elsewhere is immaterial.) -/
def Expr.map_left (f : Expr → Expr) : Expr → Expr
  | .Add a b => .Add (f a) b
  | .Sub a b => .Sub (f a) b
  | .Mul a b => .Mul (f a) b
  | .Div a b => .Div (f a) b
  | .Mod a b => .Mod (f a) b
  | e => e

/-- `ParseError` from `src/parser.rs`. -/
inductive ParseError where
  | TokenizerError (e : TokenizerError)
  | UnexpectedToken (t : Token)
deriving DecidableEq, Repr

/-- `Parser` from `src/parser.rs`: the lazy token stream and the lookahead
buffer (`VecDeque`, front at the head). -/
structure PState where
  tokens : TokenStream
  buffer : List Token
deriving DecidableEq, Repr

/-- The outcome of running a parser production: success with the remaining
state, a `ParseError` (`UnexpectedToken` or propagated `TokenizerError`), a
panic raised by `Option::expect(msg)` on a missing token, or fuel
exhaustion of the embedding (the Rust recursion carries no fuel; every
concrete run below uses ample fuel). -/
inductive PResult (α : Type) where
  | ok (a : α) (st : PState)
  | error (e : ParseError)
  | panicEOF (msg : String)
  | outOfFuel

/-- A parser production: `&mut self` methods returning
`Result<α, ParseError>` become state-passing functions into `PResult`. -/
def ParserM (α : Type) : Type := PState → PResult α

instance : Monad ParserM where
  pure a := fun st => .ok a st
  bind x f := fun st =>
    match x st with
    | .ok a st' => f a st'
    | .error e => .error e
    | .panicEOF m => .panicEOF m
    | .outOfFuel => .outOfFuel

/-- `Err(ParseError::UnexpectedToken(tok))`. -/
def throwUnexpected {α : Type} (t : Token) : ParserM α :=
  fun _ => .error (.UnexpectedToken t)

/-- `Option::expect(msg)` on the result of `peek`/`consume`: a missing
token panics. -/
def expectTok (msg : String) (o : Option Token) : ParserM Token :=
  match o with
  | some t => fun st => .ok t st
  | none => fun _ => .panicEOF msg

/-- The `while self.buffer.len() < count + 1` loop of `Parser::peek_ahead`,
with the loop measure `count + 1 - buffer.len()` made the explicit
structural argument `missing`: pull tokens from the stream into the buffer,
stopping early with `None` at end of input and keeping the partially filled
buffer. -/
def PState.fillLoop : Nat → PState → Nat →
    Except TokenizerError (Option Token × PState)
  | 0, st, count => .ok (st.buffer.get? count, st)
  | missing + 1, st, count =>
    match st.tokens.next with
    | .error e => .error e
    | .ok none => .ok (none, st)
    | .ok (some (t, ts')) => PState.fillLoop missing ⟨ts', st.buffer ++ [t]⟩ count

/-- `Parser::peek_ahead`: fill the buffer up to `count + 1` tokens, then
return the buffered token. -/
def PState.peekAhead (st : PState) (count : Nat) :
    Except TokenizerError (Option Token × PState) :=
  PState.fillLoop (count + 1 - st.buffer.length) st count

/-- `Parser::peek` is `peek_ahead(0)`. -/
def PState.peek (st : PState) : Except TokenizerError (Option Token × PState) :=
  st.peekAhead 0

/-- `Parser::consume`: take from the buffer first, else pull one token from
the stream. -/
def PState.consume (st : PState) : Except TokenizerError (Option Token × PState) :=
  match st.buffer with
  | [] =>
    match st.tokens.next with
    | .error e => .error e
    | .ok none => .ok (none, st)
    | .ok (some (t, ts')) => .ok (some t, ⟨ts', []⟩)
  | t :: rest => .ok (some t, ⟨st.tokens, rest⟩)

/-- `self.peek()?` inside a parser production. -/
def peekM : ParserM (Option Token) :=
  fun st =>
    match st.peek with
    | .error e => .error (.TokenizerError e)
    | .ok (o, st') => .ok o st'

/-- `self.peek_ahead(n)?` inside a parser production. -/
def peekAheadM (n : Nat) : ParserM (Option Token) :=
  fun st =>
    match st.peekAhead n with
    | .error e => .error (.TokenizerError e)
    | .ok (o, st') => .ok o st'

/-- `self.consume()?` inside a parser production. -/
def consumeM : ParserM (Option Token) :=
  fun st =>
    match st.consume with
    | .error e => .error (.TokenizerError e)
    | .ok (o, st') => .ok o st'

/-- `Parser::is_empty`. -/
def isEmptyM : ParserM Bool := do
  let o ← peekM
  pure o.isNone

end Beryllium

namespace Beryllium

/-- `self.consume()?.expect(msg)`. -/
def consumeExpect (msg : String) : ParserM Token := do
  let o ← consumeM
  expectTok msg o

/-- `self.peek()?.expect(msg)`. -/
def peekExpect (msg : String) : ParserM Token := do
  let o ← peekM
  expectTok msg o

mutual

/-- `Parser::parse`: items until the stream is empty. -/
def parseProgram : Nat → ParserM Program
  | 0 => fun _ => .outOfFuel
  | fuel + 1 => do
    let empty ← isEmptyM
    if empty then
      pure ⟨[]⟩
    else do
      let item ← parseItem fuel
      let prog ← parseProgram fuel
      pure ⟨item :: prog.items⟩

/-- `Parser::parse_item`: `fn NAME ( params ) body`. -/
def parseItem : Nat → ParserM Item
  | 0 => fun _ => .outOfFuel
  | fuel + 1 => do
    let t ← peekExpect "a token"
    match t.data with
    | .keyword .Fn => do
      let _ ← consumeM
      let tn ← consumeExpect "an identifier"
      match tn.data with
      | .identifier name => do
        let tp ← consumeExpect "a left parenthesis"
        match tp.data with
        | .symbol .LParen => do
          let params ← parseParams fuel
          let tr ← consumeExpect "a right parenthesis"
          match tr.data with
          | .symbol .RParen => do
            let body ← parseStatement fuel
            pure (Item.Function name params body)
          | _ => throwUnexpected tr
        | _ => throwUnexpected tp
      | _ => throwUnexpected tn
    | _ => throwUnexpected t

/-- `Parser::parse_params`: zero or more comma-separated identifiers, the
closing parenthesis left unconsumed. -/
def parseParams : Nat → ParserM (List Param)
  | 0 => fun _ => .outOfFuel
  | fuel + 1 => do
    let t ← peekExpect "an identifier or a right parenthesis"
    match t.data with
    | .symbol .RParen => pure []
    | .identifier name => do
      let _ ← consumeM
      let t2 ← peekExpect "a comma or a right parenthesis"
      match t2.data with
      | .symbol .RParen => pure [⟨name⟩]
      | .symbol .Comma => do
        let _ ← consumeM
        let more ← parseParams fuel
        pure (⟨name⟩ :: more)
      | _ => throwUnexpected t2
    | _ => throwUnexpected t

/-- `Parser::parse_statement`. -/
def parseStatement : Nat → ParserM Statement
  | 0 => fun _ => .outOfFuel
  | fuel + 1 => do
    let t ← peekExpect "a token"
    match t.data with
    | .keyword kwd =>
      match kwd with
      | .Exit => do
        let _ ← consumeM
        let tp ← consumeExpect "a left parenthesis"
        match tp.data with
        | .symbol .LParen => do
          let value ← parseExpression fuel
          let tr ← consumeExpect "a right parenthesis"
          match tr.data with
          | .symbol .RParen => do
            let ts ← consumeExpect "a semicolon"
            match ts.data with
            | .symbol .Semi => pure (Statement.Exit value)
            | _ => throwUnexpected ts
          | _ => throwUnexpected tr
        | _ => throwUnexpected tp
      | .Let => do
        let _ ← consumeM
        let tm ← peekExpect "an identifier or `mut`"
        let is_mutable ←
          match tm.data with
          | .keyword .Mut => do
            let _ ← consumeM
            pure true
          | _ => pure false
        let ti ← consumeExpect "an identifier"
        match ti.data with
        | .identifier identifier => do
          let te ← consumeExpect "an equals sign"
          match te.data with
          | .symbol .Equals => do
            let value ← parseExpression fuel
            let ts ← consumeExpect "a semicolon"
            match ts.data with
            | .symbol .Semi => pure (Statement.Let identifier value is_mutable)
            | _ => throwUnexpected ts
          | _ => throwUnexpected te
        | _ => throwUnexpected ti
      | .If => do
        let e ← parseIf fuel
        pure (Statement.ExprStmt e)
      | .Loop => do
        let e ← parseLoop fuel
        pure (Statement.ExprStmt e)
      | .While => do
        let e ← parseWhile fuel
        pure (Statement.ExprStmt e)
      | .Break => do
        let _ ← consumeM
        let ts ← consumeExpect "a semicolon"
        match ts.data with
        | .symbol .Semi => pure Statement.Break
        | _ => throwUnexpected ts
      | .Continue => do
        let _ ← consumeM
        let ts ← consumeExpect "a semicolon"
        match ts.data with
        | .symbol .Semi => pure Statement.Continue
        | _ => throwUnexpected ts
      | .Return => do
        let _ ← consumeM
        let value ← parseExpression fuel
        let ts ← consumeExpect "a semicolon"
        match ts.data with
        | .symbol .Semi => pure (Statement.Return value)
        | _ => throwUnexpected ts
      | _ => throwUnexpected ⟨.keyword kwd, t.location⟩
    | .symbol .LBrace => do
      let e ← parseBlock fuel
      pure (Statement.ExprStmt e)
    | _ => do
      let expr ← parseExpression fuel
      let ts ← consumeExpect "a semicolon `;`"
      match ts.data with
      | .symbol .Semi => pure (Statement.ExprStmt expr)
      | _ => throwUnexpected ts

/-- `Parser::parse_expression` is `parse_assign_expr`. -/
def parseExpression : Nat → ParserM Expr
  | 0 => fun _ => .outOfFuel
  | fuel + 1 => parseAssignExpr fuel

/-- `Parser::parse_assign_expr`: if the next two tokens are an identifier
and a compound-assignment symbol, consume both and parse the right-hand
side as a whole expression; otherwise fall through to *cmp*. -/
def parseAssignExpr : Nat → ParserM Expr
  | 0 => fun _ => .outOfFuel
  | fuel + 1 => do
    let t ← peekExpect "a token"
    match t.data with
    | .identifier identifier => do
      let t2 ← do
        let o ← peekAheadM 1
        expectTok "an operator" o
      match t2.data with
      | .symbol sym =>
        match sym with
        | .PlusEq => do
          let _ ← consumeM
          let _ ← consumeM
          let value ← parseExpression fuel
          pure (Expr.AddAssign identifier value)
        | .MinusEq => do
          let _ ← consumeM
          let _ ← consumeM
          let value ← parseExpression fuel
          pure (Expr.SubAssign identifier value)
        | .StarEq => do
          let _ ← consumeM
          let _ ← consumeM
          let value ← parseExpression fuel
          pure (Expr.MulAssign identifier value)
        | .SlashEq => do
          let _ ← consumeM
          let _ ← consumeM
          let value ← parseExpression fuel
          pure (Expr.DivAssign identifier value)
        | .PercentEq => do
          let _ ← consumeM
          let _ ← consumeM
          let value ← parseExpression fuel
          pure (Expr.ModAssign identifier value)
        | _ => parseExpressionCmpPart fuel
      | _ => parseExpressionCmpPart fuel
    | _ => parseExpressionCmpPart fuel

/-- `Parser::parse_expression_cmp_part`: one *add*, then at most one
comparison operator followed by one *add* (non-chaining). -/
def parseExpressionCmpPart : Nat → ParserM Expr
  | 0 => fun _ => .outOfFuel
  | fuel + 1 => do
    let expr ← parseExpressionAddPart fuel
    let o ← peekM
    match o with
    | some t =>
      match t.data with
      | .symbol .Equality => do
        let _ ← consumeM
        let rhs ← parseExpressionAddPart fuel
        pure (Expr.Equality expr rhs)
      | .symbol .NonEquality => do
        let _ ← consumeM
        let rhs ← parseExpressionAddPart fuel
        pure (Expr.NonEquality expr rhs)
      | .symbol .LAngle => do
        let _ ← consumeM
        let rhs ← parseExpressionAddPart fuel
        pure (Expr.Less expr rhs)
      | .symbol .LesserEqual => do
        let _ ← consumeM
        let rhs ← parseExpressionAddPart fuel
        pure (Expr.LessEq expr rhs)
      | .symbol .RAngle => do
        let _ ← consumeM
        let rhs ← parseExpressionAddPart fuel
        pure (Expr.Greater expr rhs)
      | .symbol .GreaterEqual => do
        let _ ← consumeM
        let rhs ← parseExpressionAddPart fuel
        pure (Expr.GreaterEq expr rhs)
      | _ => pure expr
    | none => pure expr

/-- `Parser::parse_expression_add_part`: one *mul*, then on `+`/`-` a
recursive *add* tail combined with the `map_left` left-leaning fixup. -/
def parseExpressionAddPart : Nat → ParserM Expr
  | 0 => fun _ => .outOfFuel
  | fuel + 1 => do
    let expr ← parseExpressionMulPart fuel
    let o ← peekM
    match o with
    | some t =>
      match t.data with
      | .symbol .Plus => do
        let _ ← consumeM
        let base ← parseExpressionAddPart fuel
        match base with
        | .Add _ _ | .Sub _ _ =>
          pure (base.map_left (fun lhs => .Add expr lhs))
        | other => pure (.Add expr other)
      | .symbol .Minus => do
        let _ ← consumeM
        let base ← parseExpressionAddPart fuel
        match base with
        | .Add _ _ | .Sub _ _ =>
          pure (base.map_left (fun lhs => .Sub expr lhs))
        | other => pure (.Sub expr other)
      | _ => pure expr
    | none => pure expr

/-- `Parser::parse_expression_mul_part`: one *atom*, then on `*`/`/`/`%` a
recursive *mul* tail combined with the `map_left` left-leaning fixup. -/
def parseExpressionMulPart : Nat → ParserM Expr
  | 0 => fun _ => .outOfFuel
  | fuel + 1 => do
    let expr ← parseAtom fuel
    let o ← peekM
    match o with
    | some t =>
      match t.data with
      | .symbol .Star => do
        let _ ← consumeM
        let base ← parseExpressionMulPart fuel
        match base with
        | .Mul _ _ | .Div _ _ | .Mod _ _ =>
          pure (base.map_left (fun lhs => .Mul expr lhs))
        | other => pure (.Mul expr other)
      | .symbol .Slash => do
        let _ ← consumeM
        let base ← parseExpressionMulPart fuel
        match base with
        | .Mul _ _ | .Div _ _ | .Mod _ _ =>
          pure (base.map_left (fun lhs => .Div expr lhs))
        | other => pure (.Div expr other)
      | .symbol .Percent => do
        let _ ← consumeM
        let base ← parseExpressionMulPart fuel
        match base with
        | .Mul _ _ | .Div _ _ | .Mod _ _ =>
          pure (base.map_left (fun lhs => .Mod expr lhs))
        | other => pure (.Mod expr other)
      | _ => pure expr
    | none => pure expr

/-- `Parser::parse_atom`: integer literal, identifier (with optional call
suffix), block, `if`, `loop` or `while`. -/
def parseAtom : Nat → ParserM Expr
  | 0 => fun _ => .outOfFuel
  | fuel + 1 => do
    let t ← peekExpect "a token"
    match t.data with
    | .integerLiteral lit => do
      let _ ← consumeM
      pure (Expr.IntegerLiteral lit)
    | .identifier ident => do
      let _ ← consumeM
      let o ← peekM
      match o with
      | some t2 =>
        match t2.data with
        | .symbol .LParen => do
          let _ ← consumeM
          let args ← parseArgs fuel
          let tr ← consumeExpect "a right parenthesis `)`"
          match tr.data with
          | .symbol .RParen => pure (Expr.FunctionCall ident args)
          | _ => throwUnexpected tr
        | _ => pure (Expr.Identifier ident)
      | none => pure (Expr.Identifier ident)
    | .symbol .LBrace => parseBlock fuel
    | .keyword .If => parseIf fuel
    | .keyword .Loop => parseLoop fuel
    | .keyword .While => parseWhile fuel
    | _ => throwUnexpected t

/-- `Parser::parse_args`: zero or more comma-separated expressions, the
closing parenthesis left unconsumed. -/
def parseArgs : Nat → ParserM (List Expr)
  | 0 => fun _ => .outOfFuel
  | fuel + 1 => do
    let t ← peekExpect "an identifier or a right parenthesis"
    match t.data with
    | .symbol .RParen => pure []
    | _ => do
      let expr ← parseExpression fuel
      let t2 ← peekExpect "a comma or a right parenthesis"
      match t2.data with
      | .symbol .RParen => pure [expr]
      | .symbol .Comma => do
        let _ ← consumeM
        let more ← parseArgs fuel
        pure (expr :: more)
      | _ => throwUnexpected t2

/-- `Parser::parse_block`: `{ stmt* }`. -/
def parseBlock : Nat → ParserM Expr
  | 0 => fun _ => .outOfFuel
  | fuel + 1 => do
    let t ← consumeExpect "a left brace `\x7b`"
    match t.data with
    | .symbol .LBrace => do
      let stmts ← parseBlockStmts fuel
      pure (Expr.Block stmts)
    | _ => throwUnexpected t

/-- The statement loop inside `Parser::parse_block`. -/
def parseBlockStmts : Nat → ParserM (List Statement)
  | 0 => fun _ => .outOfFuel
  | fuel + 1 => do
    let t ← peekExpect "a statement or right brace `\x7d`"
    match t.data with
    | .symbol .RBrace => do
      let _ ← consumeM
      pure []
    | _ => do
      let s ← parseStatement fuel
      let rest ← parseBlockStmts fuel
      pure (s :: rest)

/-- `Parser::parse_if`: `if ( expr ) stmt [else stmt]`. -/
def parseIf : Nat → ParserM Expr
  | 0 => fun _ => .outOfFuel
  | fuel + 1 => do
    let t ← consumeExpect "keyword `if`"
    match t.data with
    | .keyword .If => do
      let tp ← consumeExpect "a left parenthesis"
      match tp.data with
      | .symbol .LParen => do
        let check ← parseExpression fuel
        let tr ← consumeExpect "a right parenthesis"
        match tr.data with
        | .symbol .RParen => do
          let body ← parseStatement fuel
          let o ← peekM
          match o with
          | some te =>
            match te.data with
            | .keyword .Else => do
              let _ ← consumeM
              let els ← parseStatement fuel
              pure (Expr.If check body (some els))
            | _ => pure (Expr.If check body none)
          | none => pure (Expr.If check body none)
        | _ => throwUnexpected tr
      | _ => throwUnexpected tp
    | _ => throwUnexpected t

/-- `Parser::parse_loop`: `loop stmt`. -/
def parseLoop : Nat → ParserM Expr
  | 0 => fun _ => .outOfFuel
  | fuel + 1 => do
    let t ← consumeExpect "keyword `loop`"
    match t.data with
    | .keyword .Loop => do
      let body ← parseStatement fuel
      pure (Expr.Loop body)
    | _ => throwUnexpected t

/-- `Parser::parse_while`: `while ( expr ) stmt`. -/
def parseWhile : Nat → ParserM Expr
  | 0 => fun _ => .outOfFuel
  | fuel + 1 => do
    let t ← consumeExpect "keyword `while`"
    match t.data with
    | .keyword .While => do
      let tp ← consumeExpect "a left parenthesis"
      match tp.data with
      | .symbol .LParen => do
        let check ← parseExpression fuel
        let tr ← consumeExpect "a right parenthesis"
        match tr.data with
        | .symbol .RParen => do
          let body ← parseStatement fuel
          pure (Expr.While check body)
        | _ => throwUnexpected tr
      | _ => throwUnexpected tp
    | _ => throwUnexpected t

end

/-- Run the whole front end on a source string: `Parser::new(tokenize(s))`
followed by `parse`, with the given recursion fuel. -/
def runParse (fuel : Nat) (s : String) : PResult Program :=
  parseProgram fuel ⟨tokenize s, []⟩

/-- Run a single expression production on an explicit token list, as the
parser does once its buffer holds those tokens and the stream is empty. -/
def runParseExpr (fuel : Nat) (ts : List Token) : PResult Expr :=
  parseExpression fuel ⟨⟨[], Location.start⟩, ts⟩

end Beryllium

namespace Beryllium

/-- `Function` from `src/type_registry.rs`: a signature is the parameter
list. -/
structure Function where
  params : List Param
deriving DecidableEq, Repr

/-- `TypeRegistry` from `src/type_registry.rs`.  The `HashMap` is modelled
as an association list where `insert` prepends and lookup takes the first
match, which is exactly the observable `insert`/`get` behaviour (an insert
for an existing key shadows the old value). -/
structure TypeRegistry where
  functions : List (String × Function)
deriving DecidableEq, Repr

/-- `TypeRegistry::get_function`. -/
def TypeRegistry.get_function (r : TypeRegistry) (name : String) : Option Function :=
  (r.functions.find? (fun p => p.1 == name)).map (fun p => p.2)

/-- `self.functions.insert(name, function)` (`HashMap::insert`). -/
def TypeRegistry.insertFunction (r : TypeRegistry) (name : String) (f : Function) :
    TypeRegistry :=
  ⟨(name, f) :: r.functions⟩

/-- `<ast::Item as TypeHolder>::register_types`. -/
def Item.register_types : Item → TypeRegistry → TypeRegistry
  | .Function name params _body, r =>
    r.insertFunction name ⟨params.map (fun param => ⟨param.name⟩)⟩

/-- `TypeRegistry::from(&Program)`: start empty, register every item in
program order. -/
def TypeRegistry.fromProgram (p : Program) : TypeRegistry :=
  p.items.foldl (fun r item => item.register_types r) ⟨[]⟩

/-- `VariableMeta` from `src/context.rs`. -/
structure VariableMeta where
  stack_frame_offset : Nat
  is_mutable : Bool
deriving DecidableEq, Repr

/-- `VariableFrame` from `src/context.rs`; the `variables` `HashMap` is an
association list, newest binding first (see `TypeRegistry`). -/
structure VariableFrame where
  stack_size : Nat
  «variables» : List (String × VariableMeta)
deriving DecidableEq, Repr

/-- `VariableFrame::default()`. -/
def VariableFrame.default : VariableFrame := ⟨0, []⟩

/-- `VariableFrame::with_size`. -/
def VariableFrame.with_size (size : Nat) : VariableFrame := ⟨size, []⟩

/-- `frame.variables.insert(name, meta)` (`HashMap::insert`). -/
def VariableFrame.insertVar (f : VariableFrame) (name : String) (meta : VariableMeta) :
    VariableFrame :=
  { f with «variables» := (name, meta) :: f.«variables» }

/-- `frame.variables.get(name)` (`HashMap::get`). -/
def VariableFrame.getVar (f : VariableFrame) (name : String) : Option VariableMeta :=
  (f.«variables».find? (fun p => p.1 == name)).map (fun p => p.2)

/- The `VariableStack` of `src/context.rs` is a `Vec<VariableFrame>` with
the top frame at the end; it is modelled as a list with the top frame at
the head, so the source's `self.0.reversed()` top-down walks are plain
head-first walks here. -/
namespace VariableStack

/-- `VariableStack::declare_variable`: record the binding in the top frame
at the frame's current `stack_size`; with no frame, push a default frame
first. -/
def declare_variable (vs : List VariableFrame) (name : String) (is_mutable : Bool) :
    List VariableFrame :=
  match vs with
  | [] => [VariableFrame.default.insertVar name ⟨VariableFrame.default.stack_size, is_mutable⟩]
  | f :: rest => f.insertVar name ⟨f.stack_size, is_mutable⟩ :: rest

/-- `VariableStack::declare_variable_at`: like `declare_variable` but with
an explicit offset. -/
def declare_variable_at (vs : List VariableFrame) (name : String) (is_mutable : Bool)
    (offset : Nat) : List VariableFrame :=
  match vs with
  | [] => [VariableFrame.default.insertVar name ⟨offset, is_mutable⟩]
  | f :: rest => f.insertVar name ⟨offset, is_mutable⟩ :: rest

/-- The accumulator loop of `VariableStack::get_offset`: walk frames
top-down; on a hit return `frame.stack_size - meta.stack_frame_offset`
plus the accumulated sizes of the frames above; otherwise accumulate the
frame's size. -/
def get_offsetAux : List VariableFrame → String → Nat → Option Nat
  | [], _, _ => none
  | f :: rest, name, acc =>
    match f.getVar name with
    | some meta => some (f.stack_size - meta.stack_frame_offset + acc)
    | none => get_offsetAux rest name (acc + f.stack_size)

/-- `VariableStack::get_offset`. -/
def get_offset (vs : List VariableFrame) (name : String) : Option Nat :=
  get_offsetAux vs name 0

/-- `VariableStack::is_mutable`: the flag of the newest binding, walking
frames top-down. -/
def is_mutable : List VariableFrame → String → Option Bool
  | [], _ => none
  | f :: rest, name =>
    match f.getVar name with
    | some meta => some meta.is_mutable
    | none => is_mutable rest name

end VariableStack

/-- `LabelFrame` from `src/context.rs`. -/
structure LabelFrame where
  start : String
  «end» : String
deriving DecidableEq, Repr

/-- `CodegenError` from the current `src/codegen.rs` revision: the
`FunctionNotDeclared` variant is constructed in `src/context.rs` and
consumed in `src/lib.rs`, though the snapshot's `codegen.rs` (an earlier
revision) lists only the other two. -/
inductive CodegenError where
  | IdentifierNotDeclared (s : String)
  | ChangedImmutableVariable (s : String)
  | FunctionNotDeclared (s : String)
deriving DecidableEq, Repr

/-- `Context` from `src/context.rs`.  `label_counts` is the label-counter
`HashMap` as an association list (newest entry first); `label_stack` holds
the innermost loop frame at the head. -/
structure Context where
  stack_size : Nat
  «variables» : List VariableFrame
  label_counts : List (String × Nat)
  label_stack : List LabelFrame
  type_registry : TypeRegistry
deriving DecidableEq, Repr

/-- `Context::new`. -/
def Context.new (r : TypeRegistry) : Context := ⟨0, [], [], [], r⟩

/-- `Context::push`: emit `push OPERAND`, increment the global stack-height
counter and the top frame's size (creating a size-1 frame when the scope
stack is empty). -/
def Context.push (ctx : Context) (value : String) : String × Context :=
  let ctx := { ctx with stack_size := ctx.stack_size + 1 }
  let ctx := { ctx with
    «variables» :=
      match ctx.«variables» with
      | [] => [VariableFrame.with_size 1]
      | f :: rest => { f with stack_size := f.stack_size + 1 } :: rest }
  ("    push " ++ value ++ "\n", ctx)

/-- `Context::pop`: emit `pop DST`, decrement the counter and the top
frame's size; with no frame the `expect` panics (`none`). -/
def Context.pop (ctx : Context) (value : String) : Option (String × Context) :=
  match ctx.«variables» with
  | [] => none
  | f :: rest =>
    some ("    pop " ++ value ++ "\n",
      { ctx with
        stack_size := ctx.stack_size - 1,
        «variables» := { f with stack_size := f.stack_size - 1 } :: rest })

/-- `Context::declare_variable`. -/
def Context.declare_variable (ctx : Context) (identifier : String) (is_mutable : Bool) :
    Context :=
  { ctx with «variables» := VariableStack.declare_variable ctx.«variables» identifier is_mutable }

/-- `Context::get_variable`: on a hit, push a copy of the variable's slot
onto the symbolic stack. -/
def Context.get_variable (ctx : Context) (identifier : String) :
    Option (String × Context) :=
  (VariableStack.get_offset ctx.«variables» identifier).map (fun offset =>
    ctx.push ("qword [rsp + " ++ toString (offset * 8) ++ "]"))

/-- `Context::set_variable`: `ChangedImmutableVariable` for a non-`mut`
binding, `IdentifierNotDeclared` for a missing one, else emit the store
(the context itself is unchanged). -/
def Context.set_variable (ctx : Context) (identifier : String) (value : String) :
    Except CodegenError String :=
  match VariableStack.is_mutable ctx.«variables» identifier with
  | none => .error (.IdentifierNotDeclared identifier)
  | some m =>
    if !m then .error (.ChangedImmutableVariable identifier)
    else
      match VariableStack.get_offset ctx.«variables» identifier with
      | none => .error (.IdentifierNotDeclared identifier)
      | some offset =>
        .ok ("    mov qword [rsp + " ++ toString (offset * 8) ++ "], " ++ value ++ "\n")

/-- The `{index:08x}` formatting of `Context::create_label`: lowercase hex
padded to eight digits. -/
def hex8 (n : Nat) : String :=
  let s := String.mk (Nat.toDigits 16 n)
  String.mk (List.replicate (8 - s.length) '0') ++ s

/-- `Context::create_label`: the tag concatenated with the zero-padded
count, which is then incremented (`or_insert(0)`). -/
def Context.create_label (ctx : Context) (tag : String) : String × Context :=
  let index :=
    match ctx.label_counts.find? (fun p => p.1 == tag) with
    | some p => p.2
    | none => 0
  (tag ++ hex8 index, { ctx with label_counts := (tag, index + 1) :: ctx.label_counts })

/-- `Context::enter`: push an empty frame, emit nothing. -/
def Context.enter (ctx : Context) : String × Context :=
  ("", { ctx with «variables» := VariableFrame.default :: ctx.«variables» })

/-- `Context::exit`: pop the top frame and emit `add rsp, 8*N` for its
size; the global `stack_size` counter is *not* decremented (faithful to
the source).  On the empty scope stack the `expect` panics (`none`). -/
def Context.exit (ctx : Context) : Option (String × Context) :=
  match ctx.«variables» with
  | [] => none
  | f :: rest =>
    some ("    add rsp, " ++ toString (f.stack_size * 8) ++ "\n",
      { ctx with «variables» := rest })

/-- `Context::enter_labelled_region`. -/
def Context.enter_labelled_region (ctx : Context) (fr : LabelFrame) : Context :=
  { ctx with label_stack := fr :: ctx.label_stack }

/-- `Context::exit_labelled_region`. -/
def Context.exit_labelled_region (ctx : Context) : Option LabelFrame × Context :=
  match ctx.label_stack with
  | [] => (none, ctx)
  | f :: rest => (some f, { ctx with label_stack := rest })

/-- `Context::get_labelled_region`: the innermost loop frame, if any. -/
def Context.get_labelled_region (ctx : Context) : Option LabelFrame :=
  ctx.label_stack.head?

/-- `Context::enter_function`: look up the signature
(`FunctionNotDeclared` on a miss); push the params frame; add `1`
(return address) plus the parameter count to its size; declare parameter
`i` at offset `param_count - i` with `is_mutable = false`; push the empty
locals frame.  Both `enter` calls emit nothing.  (The two
`peek().unwrap()` calls cannot fail because `enter` has just pushed a
frame, so they are not modelled as panics.) -/
def Context.enter_function (ctx : Context) (name : String) :
    Except CodegenError (String × Context) :=
  match ctx.type_registry.get_function name with
  | none => .error (.FunctionNotDeclared name)
  | some function =>
    let (code1, ctx) := ctx.enter
    let param_count := function.params.length
    let ctx := { ctx with
      «variables» :=
        match ctx.«variables» with
        | f :: rest => { f with stack_size := f.stack_size + 1 + param_count } :: rest
        | [] => [] }
    let ctx := function.params.enum.foldl
      (fun c ip =>
        { c with
          «variables» :=
            VariableStack.declare_variable_at c.«variables» ip.2.name false
              (param_count - ip.1) })
      ctx
    let (code2, ctx) := ctx.enter
    .ok (code1 ++ code2, ctx)

/-- `Context::exit_function`: pop the locals frame, `mov rbx, [rsp]`, pop
the params frame, `push rbx` (emitted literally, not through
`Context::push`), `ret`.  The Rust return type is `Result` but no error
path exists; the two `exit` panics are `none`. -/
def Context.exit_function (ctx : Context) : Option (String × Context) := do
  let (c1, ctx) ← ctx.exit
  let (c2, ctx) ← ctx.exit
  some (c1 ++ "    mov rbx, [rsp]\n" ++ c2 ++ "    push rbx\n    ret\n", ctx)

end Beryllium

namespace Beryllium

/-- The outcome of a codegen call: `Ok(code)` with the mutated context,
`Err(e)` — the context still carries the mutations made before the error,
since it is behind `&mut` — or a panic (`expect`/missing match arm), which
aborts compilation. -/
inductive CgResult where
  | ok (code : String) (ctx : Context)
  | err (e : CodegenError) (ctx : Context)
  | panic
deriving DecidableEq, Repr

/-- The `?` operator on a codegen result: continue on `Ok`, propagate
`Err` and panics. -/
def CgResult.then (r : CgResult) (f : String → Context → CgResult) : CgResult :=
  match r with
  | .ok code ctx => f code ctx
  | .err e ctx => .err e ctx
  | .panic => .panic

/-- Lift a context operation whose only failure is a panic. -/
def cgOfOption (o : Option (String × Context)) : CgResult :=
  match o with
  | none => .panic
  | some (code, ctx) => .ok code ctx

/-- Every `Expr` has positive size (used only for the termination measure
of the codegen recursion). -/
theorem Expr.one_le_sizeOf (e : Expr) : 1 ≤ sizeOf e := by
  cases e <;> simp_arith

mutual

/-- `Expr::prepare_binop_registers` from `src/codegen/x86.rs`: evaluate
`a`, evaluate `b`, `pop rbx`, `pop rax`. -/
def prepareBinopRegisters (ctx : Context) (a b : Expr) : CgResult :=
  (codegenExpr a ctx).then fun ca ctx =>
  (codegenExpr b ctx).then fun cb ctx =>
  (cgOfOption (ctx.pop "rbx")).then fun p1 ctx =>
  (cgOfOption (ctx.pop "rax")).then fun p2 ctx =>
  .ok (ca ++ cb ++ p1 ++ p2) ctx
termination_by (sizeOf a + sizeOf b, 1)
decreasing_by
· exact Prod.Lex.left _ _ (by have := Expr.one_le_sizeOf b; omega)
· exact Prod.Lex.left _ _ (by have := Expr.one_le_sizeOf a; omega)

/-- `<Expr as Codegen>::codegen_x86` from `src/codegen/x86.rs`. -/
def codegenExpr : Expr → Context → CgResult
  | .Add a b, ctx =>
    (prepareBinopRegisters ctx a b).then fun code ctx =>
      let (p, ctx) := ctx.push "rax"
      .ok (code ++ "    add rax, rbx\n" ++ p) ctx
  | .Sub a b, ctx =>
    (prepareBinopRegisters ctx a b).then fun code ctx =>
      let (p, ctx) := ctx.push "rax"
      .ok (code ++ "    sub rax, rbx\n" ++ p) ctx
  | .Mul a b, ctx =>
    (prepareBinopRegisters ctx a b).then fun code ctx =>
      let (p, ctx) := ctx.push "rax"
      .ok (code ++ "    mul rbx\n" ++ p) ctx
  | .Div a b, ctx =>
    (prepareBinopRegisters ctx a b).then fun code ctx =>
      let (p, ctx) := ctx.push "rax"
      .ok (code ++ "    div rbx\n" ++ p) ctx
  | .Mod a b, ctx =>
    (prepareBinopRegisters ctx a b).then fun code ctx =>
      let (p, ctx) := ctx.push "rdx"
      .ok (code ++ "    div rbx\n" ++ p) ctx
  | .AddAssign identifier value, ctx =>
    (codegenExpr value ctx).then fun c1 ctx =>
      match ctx.get_variable identifier with
      | none => .err (.IdentifierNotDeclared identifier) ctx
      | some (c2, ctx) =>
        (cgOfOption (ctx.pop "rax")).then fun c3 ctx =>
        (cgOfOption (ctx.pop "rbx")).then fun c4 ctx =>
        match ctx.set_variable identifier "rax" with
        | .error e => .err e ctx
        | .ok c5 => .ok (c1 ++ c2 ++ c3 ++ c4 ++ "    add rax, rbx\n" ++ c5) ctx
  | .SubAssign identifier value, ctx =>
    (codegenExpr value ctx).then fun c1 ctx =>
      match ctx.get_variable identifier with
      | none => .err (.IdentifierNotDeclared identifier) ctx
      | some (c2, ctx) =>
        (cgOfOption (ctx.pop "rax")).then fun c3 ctx =>
        (cgOfOption (ctx.pop "rbx")).then fun c4 ctx =>
        match ctx.set_variable identifier "rax" with
        | .error e => .err e ctx
        | .ok c5 => .ok (c1 ++ c2 ++ c3 ++ c4 ++ "    sub rax, rbx\n" ++ c5) ctx
  | .MulAssign identifier value, ctx =>
    (codegenExpr value ctx).then fun c1 ctx =>
      match ctx.get_variable identifier with
      | none => .err (.IdentifierNotDeclared identifier) ctx
      | some (c2, ctx) =>
        (cgOfOption (ctx.pop "rax")).then fun c3 ctx =>
        (cgOfOption (ctx.pop "rbx")).then fun c4 ctx =>
        match ctx.set_variable identifier "rax" with
        | .error e => .err e ctx
        | .ok c5 => .ok (c1 ++ c2 ++ c3 ++ c4 ++ "    mul rbx\n" ++ c5) ctx
  | .DivAssign identifier value, ctx =>
    (codegenExpr value ctx).then fun c1 ctx =>
      match ctx.get_variable identifier with
      | none => .err (.IdentifierNotDeclared identifier) ctx
      | some (c2, ctx) =>
        (cgOfOption (ctx.pop "rax")).then fun c3 ctx =>
        (cgOfOption (ctx.pop "rbx")).then fun c4 ctx =>
        match ctx.set_variable identifier "rax" with
        | .error e => .err e ctx
        | .ok c5 => .ok (c1 ++ c2 ++ c3 ++ c4 ++ "    div rbx\n" ++ c5) ctx
  | .ModAssign identifier value, ctx =>
    (codegenExpr value ctx).then fun c1 ctx =>
      match ctx.get_variable identifier with
      | none => .err (.IdentifierNotDeclared identifier) ctx
      | some (c2, ctx) =>
        (cgOfOption (ctx.pop "rax")).then fun c3 ctx =>
        (cgOfOption (ctx.pop "rbx")).then fun c4 ctx =>
        match ctx.set_variable identifier "rdx" with
        | .error e => .err e ctx
        | .ok c5 => .ok (c1 ++ c2 ++ c3 ++ c4 ++ "    div rbx\n" ++ c5) ctx
  | .Equality a b, ctx =>
    (prepareBinopRegisters ctx a b).then fun code ctx =>
      let (p, ctx) := ctx.push "rcx"
      .ok (code ++ "    mov rcx, 0\n    cmp rax, rbx\n    sete cl\n" ++ p) ctx
  | .NonEquality a b, ctx =>
    (prepareBinopRegisters ctx a b).then fun code ctx =>
      let (p, ctx) := ctx.push "rcx"
      .ok (code ++ "    mov rcx, 0\n    cmp rax, rbx\n    setne cl\n" ++ p) ctx
  | .Less a b, ctx =>
    (prepareBinopRegisters ctx a b).then fun code ctx =>
      let (p, ctx) := ctx.push "rcx"
      .ok (code ++ "    mov rcx, 0\n    cmp rax, rbx\n    setl cl\n" ++ p) ctx
  | .LessEq a b, ctx =>
    (prepareBinopRegisters ctx a b).then fun code ctx =>
      let (p, ctx) := ctx.push "rcx"
      .ok (code ++ "    mov rcx, 0\n    cmp rax, rbx\n    setle cl\n" ++ p) ctx
  | .Greater a b, ctx =>
    (prepareBinopRegisters ctx a b).then fun code ctx =>
      let (p, ctx) := ctx.push "rcx"
      .ok (code ++ "    mov rcx, 0\n    cmp rax, rbx\n    setg cl\n" ++ p) ctx
  | .GreaterEq a b, ctx =>
    (prepareBinopRegisters ctx a b).then fun code ctx =>
      let (p, ctx) := ctx.push "rcx"
      .ok (code ++ "    mov rcx, 0\n    cmp rax, rbx\n    setge cl\n" ++ p) ctx
  | .IntegerLiteral value, ctx =>
    let (p, ctx) := ctx.push value
    .ok p ctx
  | .Identifier ident, ctx =>
    match ctx.get_variable ident with
    | none => .err (.IdentifierNotDeclared ident) ctx
    | some (code, ctx) => .ok code ctx
  | .FunctionCall name args, ctx =>
    (codegenArgs args ctx).then fun code ctx =>
      .ok (code ++ "    call " ++ name ++ "\n") ctx
  | .Block stmts, ctx =>
    let (c0, ctx) := ctx.enter
    (codegenStmts stmts ctx).then fun c1 ctx =>
    (cgOfOption ctx.exit).then fun c2 ctx =>
    .ok (c0 ++ c1 ++ c2) ctx
  | .If check body els, ctx =>
    let (if_label, ctx) := ctx.create_label "if"
    let (else_label, ctx) := ctx.create_label "else"
    let (endif_label, ctx) := ctx.create_label "endif"
    (codegenExpr check ctx).then fun c1 ctx =>
    (cgOfOption (ctx.pop "rax")).then fun c2 ctx =>
    let (c3, ctx) := ctx.enter
    (codegenStmt body ctx).then fun c4 ctx =>
    (cgOfOption ctx.exit).then fun c5 ctx =>
      let head := if_label ++ ":\n" ++ c1 ++ c2 ++ "    or rax, rax\n" ++
        "    jz " ++ else_label ++ "\n" ++ c3 ++ c4 ++ c5 ++
        "    jmp " ++ endif_label ++ "\n" ++ else_label ++ ":\n"
      match els with
      | some e =>
        let (c6, ctx) := ctx.enter
        (codegenStmt e ctx).then fun c7 ctx =>
        (cgOfOption ctx.exit).then fun c8 ctx =>
        .ok (head ++ c6 ++ c7 ++ c8 ++ endif_label ++ ":\n") ctx
      | none => .ok (head ++ endif_label ++ ":\n") ctx
  | .Loop body, ctx =>
    let (loop_label, ctx) := ctx.create_label "loop"
    let (endloop_label, ctx) := ctx.create_label "endloop"
    let ctx := ctx.enter_labelled_region ⟨loop_label, endloop_label⟩
    (codegenStmt body ctx).then fun c1 ctx =>
      let (_, ctx) := ctx.exit_labelled_region
      .ok (loop_label ++ ":\n" ++ c1 ++ "    jmp " ++ loop_label ++ "\n" ++
        endloop_label ++ ":\n") ctx
  | .While check body, ctx =>
    let (while_label, ctx) := ctx.create_label "while"
    let (endwhile_label, ctx) := ctx.create_label "endwhile"
    let ctx := ctx.enter_labelled_region ⟨while_label, endwhile_label⟩
    (codegenExpr check ctx).then fun c1 ctx =>
    (cgOfOption (ctx.pop "rax")).then fun c2 ctx =>
    (codegenStmt body ctx).then fun c3 ctx =>
      let (_, ctx) := ctx.exit_labelled_region
      .ok (while_label ++ ":\n" ++ c1 ++ c2 ++ "    or rax, rax\n" ++
        "    jz " ++ endwhile_label ++ "\n" ++ c3 ++
        "    jmp " ++ while_label ++ "\n" ++ endwhile_label ++ ":\n") ctx
termination_by e ctx => (sizeOf e, 0)
decreasing_by all_goals (apply Prod.Lex.left; simp_arith)

/-- The argument fold of `Expr::FunctionCall` codegen:
`args.map(codegen).reduce(|a, b| Ok(a? + &b?))`.  The iterator runs every
argument's codegen (mutating the context) even after an `Err`; the first
error is the combined result. -/
def codegenArgs : List Expr → Context → CgResult
  | [], ctx => .ok "" ctx
  | e :: rest, ctx =>
    match codegenExpr e ctx with
    | .panic => .panic
    | .ok code ctx' =>
      match codegenArgs rest ctx' with
      | .panic => .panic
      | .ok code' ctx'' => .ok (code ++ code') ctx''
      | .err er ctx'' => .err er ctx''
    | .err er ctx' =>
      match codegenArgs rest ctx' with
      | .panic => .panic
      | .ok _ ctx'' => .err er ctx''
      | .err _ ctx'' => .err er ctx''
termination_by es ctx => (sizeOf es, 0)
decreasing_by all_goals (apply Prod.Lex.left; simp_arith)

/-- The statement fold of `Expr::Block` codegen, with the same
`map`/`reduce` semantics as `codegenArgs`. -/
def codegenStmts : List Statement → Context → CgResult
  | [], ctx => .ok "" ctx
  | s :: rest, ctx =>
    match codegenStmt s ctx with
    | .panic => .panic
    | .ok code ctx' =>
      match codegenStmts rest ctx' with
      | .panic => .panic
      | .ok code' ctx'' => .ok (code ++ code') ctx''
      | .err er ctx'' => .err er ctx''
    | .err er ctx' =>
      match codegenStmts rest ctx' with
      | .panic => .panic
      | .ok _ ctx'' => .err er ctx''
      | .err _ ctx'' => .err er ctx''
termination_by ss ctx => (sizeOf ss, 0)
decreasing_by all_goals (apply Prod.Lex.left; simp_arith)

/-- `<Statement as Codegen>::codegen_x86` from `src/codegen/x86.rs`.  The
source match has `Exit`, `Expr`, `Let`, `Break` and `Continue` arms and
*no* `Return` arm, although the parser produces `Statement::Return`; the
missing case is mapped to the bottom result `panic` here (see the claim C1
discussion: the arm is absent from the snapshot). -/
def codegenStmt : Statement → Context → CgResult
  | .Exit value, ctx =>
    (codegenExpr value ctx).then fun c1 ctx =>
    (cgOfOption (ctx.pop "rdi")).then fun c2 ctx =>
    .ok (c1 ++ "    mov rax, 60\n" ++ c2 ++ "    syscall\n") ctx
  | .ExprStmt value, ctx => codegenExpr value ctx
  | .Let identifier value is_mutable, ctx =>
    match codegenExpr value ctx with
    | .panic => .panic
    | .ok code ctx' => .ok code (ctx'.declare_variable identifier is_mutable)
    | .err e ctx' => .err e (ctx'.declare_variable identifier is_mutable)
  | .Break, ctx =>
    match ctx.get_labelled_region with
    | none => .panic
    | some fr => .ok ("    jmp " ++ fr.«end» ++ "\n") ctx
  | .Continue, ctx =>
    match ctx.get_labelled_region with
    | none => .panic
    | some fr => .ok ("    jmp " ++ fr.start ++ "\n") ctx
  | .Return _, _ => .panic
termination_by s ctx => (sizeOf s, 0)
decreasing_by all_goals (apply Prod.Lex.left; simp_arith)

end

/-- `<Item as Codegen>::codegen_x86`: label, `enter_function`, body,
`exit_function`. -/
def codegenItem : Item → Context → CgResult
  | .Function name _params body, ctx =>
    match ctx.enter_function name with
    | .error e => .err e ctx
    | .ok (c1, ctx) =>
      (codegenStmt body ctx).then fun c2 ctx =>
      (cgOfOption ctx.exit_function).then fun c3 ctx =>
      .ok (name ++ ":\n" ++ c1 ++ c2 ++ c3) ctx

/-- The item loop of `<Program as Codegen>::codegen_x86`; unlike the block
fold, the `for` loop short-circuits with `?` on the first error. -/
def codegenItems : List Item → Context → CgResult
  | [], ctx => .ok "" ctx
  | item :: rest, ctx =>
    (codegenItem item ctx).then fun c1 ctx =>
    (codegenItems rest ctx).then fun c2 ctx =>
    .ok (c1 ++ c2) ctx

/-- `<Program as Codegen>::codegen_x86`: the `global _start` header, then
every item. -/
def codegenProgram (p : Program) (ctx : Context) : CgResult :=
  (codegenItems p.items ctx).then fun code ctx =>
  .ok ("global _start\n" ++ code) ctx

end Beryllium

namespace Beryllium

/-! ## Helper lemmas -/

/-- Looking a name up after a registry insert: the fresh binding shadows. -/
theorem getFunction_insert (r : TypeRegistry) (m : String) (f : Function) (n : String) :
    (r.insertFunction m f).get_function n = if m = n then some f else r.get_function n := by
  simp only [TypeRegistry.insertFunction, TypeRegistry.get_function, List.find?]
  by_cases h : m = n
  · simp [h]
  · simp [beq_eq_decide, h]

/-- Registering items none of which bears the looked-up name leaves the
lookup unchanged. -/
theorem getFunction_foldl_of_not_mem (items : List Item) (r : TypeRegistry) (n : String)
    (h : ∀ it ∈ items, ∀ ps b, it = Item.Function n ps b → False) :
    (items.foldl (fun r it => it.register_types r) r).get_function n = r.get_function n := by
  induction items generalizing r with
  | nil => rfl
  | cons it rest ih =>
    cases it with
    | Function m ps b =>
      simp only [List.foldl_cons]
      rw [ih _ (fun x hx => h x (List.mem_cons_of_mem _ hx))]
      simp only [Item.register_types, getFunction_insert]
      have hmn : m ≠ n := by
        intro he
        exact h _ (List.mem_cons_self _ _) ps b (by rw [he])
      simp [hmn]

end Beryllium

namespace Beryllium

/-! ## Claim C8 -/

/-- C8: building a `TypeRegistry` from a `Program` containing two or more
top-level functions with the same name stores the textually last
definition's parameter list (duplicates overwrite: the last definition of
`name`, with nothing after it redefining `name`, is what `get_function`
returns), and `get_function` returns `none` for a name no item defines. -/
theorem c8_registry_duplicates_overwrite
    (pre post : List Item) (name : String) (params : List Param) (body : Statement)
    (hpost : ∀ it ∈ post, ∀ ps b, it = Item.Function name ps b → False) :
    (TypeRegistry.fromProgram ⟨pre ++ Item.Function name params body :: post⟩).get_function name
      = some ⟨params.map (fun param => ⟨param.name⟩)⟩
  ∧ ∀ (items : List Item) (other : String),
      (∀ it ∈ items, ∀ ps b, it = Item.Function other ps b → False) →
      (TypeRegistry.fromProgram ⟨items⟩).get_function other = none := by
  constructor
  · simp only [TypeRegistry.fromProgram, List.foldl_append, List.foldl_cons]
    rw [getFunction_foldl_of_not_mem _ _ _ hpost]
    simp [Item.register_types, getFunction_insert]
  · intro items other h
    simp only [TypeRegistry.fromProgram]
    rw [getFunction_foldl_of_not_mem _ _ _ h]
    rfl

/-- Witness for C8 at a concrete program: two definitions of `f`; the
later one (parameters `a`, `b`) wins, and `g` misses. -/
theorem c8_registry_duplicates_overwrite_witness :
    (TypeRegistry.fromProgram ⟨[Item.Function "f" [⟨"a"⟩] Statement.Break,
        Item.Function "f" [⟨"a"⟩, ⟨"b"⟩] Statement.Break]⟩).get_function "f"
      = some ⟨[⟨"a"⟩, ⟨"b"⟩]⟩
  ∧ (TypeRegistry.fromProgram ⟨[Item.Function "f" [⟨"a"⟩] Statement.Break,
        Item.Function "f" [⟨"a"⟩, ⟨"b"⟩] Statement.Break]⟩).get_function "g" = none := by
  have h := c8_registry_duplicates_overwrite
    [Item.Function "f" [⟨"a"⟩] Statement.Break] [] "f" [⟨"a"⟩, ⟨"b"⟩] Statement.Break
    (by intro it hit; simp at hit)
  refine ⟨by simpa using h.1, ?_⟩
  refine h.2 _ "g" ?_
  intro it hit ps b he
  rw [he] at hit
  simp [List.mem_cons] at hit

end Beryllium

namespace Beryllium

/-! ## Claim C6 -/

/-- C6: with an empty loop-label stack, codegen of `break` or `continue`
fails fatally (the source panics through
`expect("can't break from current context")`, modelled as the `panic`
result); with an enclosing loop, `break` emits a jump to the innermost
region's end label and `continue` a jump to its start label. -/
theorem c6_break_continue (ctx : Context) :
    (ctx.label_stack = [] →
      codegenStmt Statement.Break ctx = .panic ∧
      codegenStmt Statement.Continue ctx = .panic)
  ∧ ∀ fr rest, ctx.label_stack = fr :: rest →
      codegenStmt Statement.Break ctx = .ok ("    jmp " ++ fr.«end» ++ "\n") ctx ∧
      codegenStmt Statement.Continue ctx = .ok ("    jmp " ++ fr.start ++ "\n") ctx := by
  constructor
  · intro h
    constructor <;> simp [codegenStmt, Context.get_labelled_region, h]
  · intro fr rest h
    constructor <;> simp [codegenStmt, Context.get_labelled_region, h]

/-- Witness for C6: outside any loop `break` is fatal; inside the region
`(loop00000000, endloop00000000)` the two jumps are emitted. -/
theorem c6_break_continue_witness :
    codegenStmt Statement.Break (Context.new ⟨[]⟩) = .panic
  ∧ codegenStmt Statement.Break
      ((Context.new ⟨[]⟩).enter_labelled_region ⟨"loop00000000", "endloop00000000"⟩)
      = .ok "    jmp endloop00000000\n"
          ((Context.new ⟨[]⟩).enter_labelled_region ⟨"loop00000000", "endloop00000000"⟩)
  ∧ codegenStmt Statement.Continue
      ((Context.new ⟨[]⟩).enter_labelled_region ⟨"loop00000000", "endloop00000000"⟩)
      = .ok "    jmp loop00000000\n"
          ((Context.new ⟨[]⟩).enter_labelled_region ⟨"loop00000000", "endloop00000000"⟩) :=
  ⟨((c6_break_continue (Context.new ⟨[]⟩)).1 rfl).1,
   ((c6_break_continue _).2 ⟨"loop00000000", "endloop00000000"⟩ [] rfl).1,
   ((c6_break_continue _).2 ⟨"loop00000000", "endloop00000000"⟩ [] rfl).2⟩

end Beryllium

namespace Beryllium

/-! ## Claim C5 -/

/-- The bindings recorded by the parameter-declaration loop of
`enter_function`: parameter `i` (0-indexed) at offset `param_count - i`,
immutable; the fold prepends, so the list ends up reversed. -/
def declListOf (ps : List Param) : List (String × VariableMeta) :=
  (ps.enum.map (fun ip => (ip.2.name, (⟨ps.length - ip.1, false⟩ : VariableMeta)))).reverse

/-- Characterization of the parameter-declaration fold of
`enter_function` over an arbitrary index/parameter list. -/
theorem declFold_eq (L : List (Nat × Param)) (n : Nat) (c : Context)
    (f : VariableFrame) (rest : List VariableFrame) (h : c.«variables» = f :: rest) :
    L.foldl
      (fun c ip =>
        { c with
          «variables» :=
            VariableStack.declare_variable_at c.«variables» ip.2.name false (n - ip.1) }) c
    = { c with
        «variables» :=
          { f with
            «variables» :=
              (L.map (fun ip => (ip.2.name, (⟨n - ip.1, false⟩ : VariableMeta)))).reverse
                ++ f.«variables» } :: rest } := by
  induction L generalizing c f with
  | nil =>
    cases c with
    | mk s v lc ls tr =>
      simp only [List.foldl_nil, List.map_nil, List.reverse_nil, List.nil_append]
      simp at h
      simp [h]
  | cons ip L ih =>
    simp only [List.foldl_cons]
    rw [ih _ (f.insertVar ip.2.name ⟨n - ip.1, false⟩) (by simp [h, VariableStack.declare_variable_at])]
    cases c with
    | mk s v lc ls tr =>
      simp at h
      simp [h, VariableFrame.insertVar, List.append_assoc]

/-- Explicit form of a successful `enter_function`: an empty locals frame
over a params frame of size `1 + param_count` holding `declListOf`, over
the caller's frames; the emitted code is empty. -/
theorem enter_function_eq (ctx : Context) (name : String) (f : Function)
    (h : ctx.type_registry.get_function name = some f) :
    ctx.enter_function name
      = .ok ("", { ctx with
          «variables» :=
            VariableFrame.default ::
            ⟨0 + 1 + f.params.length, declListOf f.params⟩ :: ctx.«variables» }) := by
  unfold Context.enter_function
  rw [h]
  simp only [Context.enter]
  rw [declFold_eq _ _ _ (⟨0 + 1 + f.params.length, []⟩ : VariableFrame) ctx.«variables»
    (by simp [VariableFrame.default])]
  simp [declListOf, VariableFrame.default]

end Beryllium

namespace Beryllium

/-- The enumeration of a parameter list keeps the names in order. -/
theorem enumFrom_map_name (ps : List Param) :
    ∀ k, (List.enumFrom k ps).map (fun ip => ip.2.name) = ps.map Param.name := by
  induction ps with
  | nil => intro k; rfl
  | cons p ps ih => intro k; simp [List.enumFrom, ih]

/-- The keys of `declListOf` are the parameter names, reversed. -/
theorem declListOf_keys (ps : List Param) :
    (declListOf ps).map Prod.fst = (ps.map Param.name).reverse := by
  simp only [declListOf, List.map_reverse, List.map_map]
  congr 1
  rw [show ps.enum = List.enumFrom 0 ps from rfl]
  exact enumFrom_map_name ps 0

/-- Indexed membership in `enumFrom`. -/
theorem mem_enumFrom_get (ps : List Param) :
    ∀ k i (hi : i < ps.length), (k + i, ps.get ⟨i, hi⟩) ∈ List.enumFrom k ps := by
  induction ps with
  | nil => intro k i hi; exact absurd hi (by simp)
  | cons p ps ih =>
    intro k i hi
    cases i with
    | zero => simp [List.enumFrom]
    | succ j =>
      have hj : j < ps.length := by simpa using hi
      have h2 : k + (j + 1) = (k + 1) + j := by omega
      have h3 : (p :: ps).get ⟨j + 1, hi⟩ = ps.get ⟨j, hj⟩ := rfl
      rw [h2, h3]
      exact List.mem_cons_of_mem _ (ih (k + 1) j hj)

/-- First-match lookup in an association list with pairwise-distinct keys
finds exactly the member pair. -/
theorem find?_eq_of_nodup_keys {β : Type} (L : List (String × β)) (k : String) (v : β)
    (hnd : (L.map Prod.fst).Nodup) (hm : (k, v) ∈ L) :
    L.find? (fun p => p.1 == k) = some (k, v) := by
  induction L with
  | nil => cases hm
  | cons a L ih =>
    by_cases hk : a.1 = k
    · have hb : (a.1 == k) = true := by simp [hk]
      simp only [List.find?, hb]
      rcases List.mem_cons.mp hm with he | hmem
      · rw [he]
      · exfalso
        have hk' : k ∈ L.map Prod.fst := List.mem_map.mpr ⟨(k, v), hmem, rfl⟩
        have hni := (List.nodup_cons.mp hnd).1
        rw [hk] at hni
        exact hni hk'
    · have hb : (a.1 == k) = false := by simp [hk]
      simp only [List.find?, hb]
      rcases List.mem_cons.mp hm with he | hmem
      · exfalso; rw [← he] at hk; exact hk rfl
      · exact ih (List.nodup_cons.mp hnd).2 hmem

/-- C5: `enter_function(name)` returns `FunctionNotDeclared` for a name
absent from the registry; for a registered signature it pushes a params
frame whose `stack_size` is `1 + param_count`, declaring the i-th
parameter (0-indexed, left-to-right) at offset `param_count - i` from the
frame base (looked up by `getVar` when the parameter names are distinct),
under an empty locals frame.  `exit_function` pops the locals frame
(`add rsp, 8*L`), loads the return value via `mov rbx, [rsp]`, pops the
params frame (`add rsp, 8*P`), pushes `rbx` and emits `ret`. -/
theorem c5_enter_exit_function (ctx : Context) (name : String) :
    (ctx.type_registry.get_function name = none →
      ctx.enter_function name = .error (.FunctionNotDeclared name))
  ∧ (∀ f, ctx.type_registry.get_function name = some f →
      ctx.enter_function name
        = .ok ("", { ctx with
            «variables» :=
              VariableFrame.default ::
              ⟨0 + 1 + f.params.length, declListOf f.params⟩ :: ctx.«variables» })
      ∧ ∀ (_ : (f.params.map Param.name).Nodup) i (hi : i < f.params.length),
          VariableFrame.getVar ⟨0 + 1 + f.params.length, declListOf f.params⟩
              (f.params.get ⟨i, hi⟩).name
            = some ⟨f.params.length - i, false⟩)
  ∧ (∀ l p rest, ctx.«variables» = l :: p :: rest →
      ctx.exit_function
        = some ((("    add rsp, " ++ toString (l.stack_size * 8) ++ "\n")
              ++ ("    mov rbx, [rsp]\n"
              ++ (("    add rsp, " ++ toString (p.stack_size * 8) ++ "\n")
              ++ "    push rbx\n    ret\n"))),
            { ctx with «variables» := rest })) := by
  refine ⟨?_, ?_, ?_⟩
  · intro h
    simp [Context.enter_function, h]
  · intro f h
    refine ⟨enter_function_eq ctx name f h, ?_⟩
    intro hn i hi
    unfold VariableFrame.getVar
    rw [find?_eq_of_nodup_keys _ _ (⟨f.params.length - i, false⟩ : VariableMeta) ?_ ?_]
    · rfl
    · rw [declListOf_keys]
      exact List.nodup_reverse.mpr hn
    · simp only [declListOf, List.mem_reverse, List.mem_map]
      refine ⟨(i, f.params.get ⟨i, hi⟩), ?_, rfl⟩
      rw [show List.enum f.params = List.enumFrom 0 f.params from rfl]
      have := mem_enumFrom_get f.params 0 i hi
      simpa using this
  · intro l p rest h
    simp [Context.exit_function, Context.exit, h, String.append_assoc]

/-- Witness for C5: a registry holding `f(a, b)`; `enter_function "g"`
fails, `enter_function "f"` builds the expected frames, parameter `b` sits
at offset 1, and `exit_function` over frames of sizes 3 and 5 emits the
epilogue. -/
theorem c5_enter_exit_function_witness :
    (Context.new ⟨[]⟩).enter_function "g" = .error (.FunctionNotDeclared "g")
  ∧ (Context.new ⟨[("f", ⟨[⟨"a"⟩, ⟨"b"⟩]⟩)]⟩).enter_function "f"
      = .ok ("", { Context.new ⟨[("f", ⟨[⟨"a"⟩, ⟨"b"⟩]⟩)]⟩ with
          «variables» :=
            [VariableFrame.default, ⟨0 + 1 + 2, declListOf [⟨"a"⟩, ⟨"b"⟩]⟩] })
  ∧ VariableFrame.getVar ⟨0 + 1 + 2, declListOf [⟨"a"⟩, ⟨"b"⟩]⟩ "b" = some ⟨1, false⟩
  ∧ ({ Context.new ⟨[]⟩ with «variables» := [⟨3, []⟩, ⟨5, []⟩] } : Context).exit_function
      = some ((("    add rsp, " ++ toString (3 * 8) ++ "\n")
            ++ ("    mov rbx, [rsp]\n"
            ++ (("    add rsp, " ++ toString (5 * 8) ++ "\n")
            ++ "    push rbx\n    ret\n"))),
          { Context.new ⟨[]⟩ with «variables» := ([] : List VariableFrame) }) := by
  refine ⟨(c5_enter_exit_function (Context.new ⟨[]⟩) "g").1 rfl, ?_, ?_, ?_⟩
  · exact (((c5_enter_exit_function (Context.new ⟨[("f", ⟨[⟨"a"⟩, ⟨"b"⟩]⟩)]⟩) "f").2.1)
      ⟨[⟨"a"⟩, ⟨"b"⟩]⟩ rfl).1
  · have := (((c5_enter_exit_function (Context.new ⟨[("f", ⟨[⟨"a"⟩, ⟨"b"⟩]⟩)]⟩) "f").2.1)
      ⟨[⟨"a"⟩, ⟨"b"⟩]⟩ rfl).2 (by simp) 1 (by simp)
    simpa using this
  · exact ((c5_enter_exit_function
      ({ Context.new ⟨[]⟩ with «variables» := [⟨3, []⟩, ⟨5, []⟩] }) "x").2.2) ⟨3, []⟩ ⟨5, []⟩ [] rfl

end Beryllium

namespace Beryllium

/-! ## Claim C9 -/

/-- `get_offset` and `is_mutable` hit on exactly the same names. -/
theorem getOffsetAux_isSome_eq (vs : List VariableFrame) (nm : String) :
    ∀ acc, (VariableStack.get_offsetAux vs nm acc).isSome
      = (VariableStack.is_mutable vs nm).isSome := by
  induction vs with
  | nil => intro acc; rfl
  | cons f rest ih =>
    intro acc
    simp only [VariableStack.get_offsetAux, VariableStack.is_mutable]
    cases f.getVar nm with
    | none => exact ih _
    | some meta => rfl

/-- Pushing onto the symbolic stack does not change variable lookups. -/
theorem isMutable_push (ctx : Context) (v nm : String) :
    VariableStack.is_mutable (ctx.push v).2.«variables» nm
      = VariableStack.is_mutable ctx.«variables» nm := by
  simp only [Context.push]
  cases h : ctx.«variables» with
  | nil => simp [VariableStack.is_mutable, VariableFrame.getVar, VariableFrame.with_size]
  | cons f rest => simp [VariableStack.is_mutable, VariableFrame.getVar]

/-- A frame's `stack_size` is irrelevant to variable lookups. -/
theorem isMutable_size_irrel (f : VariableFrame) (rest : List VariableFrame)
    (nm : String) (sz : Nat) :
    VariableStack.is_mutable ({ f with stack_size := sz } :: rest) nm
      = VariableStack.is_mutable (f :: rest) nm := by
  simp [VariableStack.is_mutable, VariableFrame.getVar]

/-- Every binding `declListOf` records is immutable, and every parameter
name is found. -/
theorem getVar_declListOf_false (ps : List Param) (sz : Nat) (p : String)
    (hp : p ∈ ps.map Param.name) :
    ∃ off, VariableFrame.getVar ⟨sz, declListOf ps⟩ p = some ⟨off, false⟩ := by
  have hkey : p ∈ (declListOf ps).map Prod.fst := by
    rw [declListOf_keys]
    simpa [List.mem_reverse] using hp
  obtain ⟨pair, hpair, hfst⟩ := List.mem_map.mp hkey
  have hsome : ((declListOf ps).find? (fun q => q.1 == p)).isSome := by
    rw [List.find?_isSome]
    exact ⟨pair, hpair, by simp [hfst]⟩
  obtain ⟨a, ha⟩ := Option.isSome_iff_exists.mp hsome
  have hmem := List.mem_of_find?_eq_some ha
  have hfa : a.2.is_mutable = false := by
    simp only [declListOf, List.mem_reverse, List.mem_map] at hmem
    obtain ⟨ip, _, he⟩ := hmem
    rw [← he]
  refine ⟨a.2.stack_frame_offset, ?_⟩
  have h2 : a.2 = ⟨a.2.stack_frame_offset, false⟩ := by
    cases hm : a.2
    simp_all
  unfold VariableFrame.getVar
  rw [ha, Option.map_some']
  exact congrArg some h2

/-- C9: `enter_function` declares every parameter with
`is_mutable = false` (there is no `mut` marker in the parameter grammar:
`Param` has only a name), so after function entry every parameter name
resolves as immutable; and a compound assignment whose identifier resolves
as immutable — once its right-hand side has been generated — fails with
`ChangedImmutableVariable`, for all five operators. -/
theorem c9_params_immutable (ctx : Context) (name : String) (f : Function)
    (h : ctx.type_registry.get_function name = some f) :
    (∀ p ∈ f.params.map Param.name, ∃ ctx',
        ctx.enter_function name = .ok ("", ctx')
        ∧ VariableStack.is_mutable ctx'.«variables» p = some false)
  ∧ (∀ (ctx1 : Context) (id : String) (e : Expr) (c1 : String) (ctx2 : Context),
      codegenExpr e ctx1 = .ok c1 ctx2 →
      VariableStack.is_mutable ctx2.«variables» id = some false →
        (∃ ctx3, codegenExpr (.AddAssign id e) ctx1 = .err (.ChangedImmutableVariable id) ctx3)
      ∧ (∃ ctx3, codegenExpr (.SubAssign id e) ctx1 = .err (.ChangedImmutableVariable id) ctx3)
      ∧ (∃ ctx3, codegenExpr (.MulAssign id e) ctx1 = .err (.ChangedImmutableVariable id) ctx3)
      ∧ (∃ ctx3, codegenExpr (.DivAssign id e) ctx1 = .err (.ChangedImmutableVariable id) ctx3)
      ∧ (∃ ctx3, codegenExpr (.ModAssign id e) ctx1 = .err (.ChangedImmutableVariable id) ctx3)) := by
  constructor
  · intro p hp
    refine ⟨_, enter_function_eq ctx name f h, ?_⟩
    obtain ⟨off, hoff⟩ := getVar_declListOf_false f.params (0 + 1 + f.params.length) p hp
    have hd : VariableFrame.default.getVar p = none := rfl
    simp only [VariableStack.is_mutable, hd, hoff]
  · intro ctx1 id e c1 ctx2 he hmut
    have hvars : ctx2.«variables» ≠ [] := by
      intro hnil
      rw [hnil] at hmut
      simp [VariableStack.is_mutable] at hmut
    obtain ⟨fr, rest, hfr⟩ : ∃ fr rest, ctx2.«variables» = fr :: rest := by
      cases hv : ctx2.«variables» with
      | nil => exact absurd hv hvars
      | cons a b => exact ⟨a, b, rfl⟩
    have hoffs : (VariableStack.get_offset ctx2.«variables» id).isSome := by
      rw [VariableStack.get_offset, getOffsetAux_isSome_eq, hmut]
      rfl
    obtain ⟨off, hoff⟩ := Option.isSome_iff_exists.mp hoffs
    rw [hfr] at hoff
    have hmut2 : VariableStack.is_mutable
        ({ fr with stack_size := fr.stack_size + 1 - 1 - 1 } :: rest) id = some false := by
      rw [isMutable_size_irrel, ← hfr, hmut]
    refine ⟨?_, ?_, ?_, ?_, ?_⟩ <;>
      · refine ⟨{ ctx2 with
            stack_size := ctx2.stack_size + 1 - 1 - 1,
            «variables» := { fr with stack_size := fr.stack_size + 1 - 1 - 1 } :: rest }, ?_⟩
        simp only [codegenExpr, he, CgResult.then, Context.get_variable, hfr, hoff,
          Option.map_some', Context.push, Context.pop, cgOfOption,
          Context.set_variable, hmut2]
        simp

end Beryllium

namespace Beryllium

/-- Witness for C9: entering `f(a)` leaves `a` immutable, and `a += 1`
over a context in which `a` is bound immutably fails with
`ChangedImmutableVariable "a"`. -/
theorem c9_params_immutable_witness :
    (∃ ctx', (Context.new ⟨[("f", ⟨[⟨"a"⟩]⟩)]⟩).enter_function "f" = .ok ("", ctx')
       ∧ VariableStack.is_mutable ctx'.«variables» "a" = some false)
  ∧ (∃ ctx3, codegenExpr (.AddAssign "a" (.IntegerLiteral "1"))
        { Context.new ⟨[]⟩ with «variables» := [⟨1, [("a", ⟨1, false⟩)]⟩] }
      = .err (.ChangedImmutableVariable "a") ctx3) := by
  constructor
  · exact (c9_params_immutable (Context.new ⟨[("f", ⟨[⟨"a"⟩]⟩)]⟩) "f" ⟨[⟨"a"⟩]⟩ rfl).1 "a"
      (by simp)
  · refine ((c9_params_immutable (Context.new ⟨[("f", ⟨[⟨"a"⟩]⟩)]⟩) "f" ⟨[⟨"a"⟩]⟩ rfl).2
      { Context.new ⟨[]⟩ with «variables» := [⟨1, [("a", ⟨1, false⟩)]⟩] } "a"
      (.IntegerLiteral "1") "    push 1\n"
      { Context.new ⟨[]⟩ with
          stack_size := 0 + 1,
          «variables» := [⟨2, [("a", ⟨1, false⟩)]⟩] } ?_ ?_).1
    · simp [codegenExpr, Context.push, Context.new]
    · rfl

end Beryllium

namespace Beryllium

/-! ## Claim C10 -/

/-- C10: redeclaring a name that already exists in the current scope frame
replaces the binding: the frame holds the new entry first (so every
subsequent lookup resolves to the newest declaration's offset — recorded
at the frame's current `stack_size`, giving offset-from-top 0 — and its
mutability flag, as `set_variable` shows), while the frame's `stack_size`
is untouched, so the older declaration's slot stays counted until the
frame exits. -/
theorem c10_shadowing_in_frame (ctx : Context) (f : VariableFrame)
    (fs : List VariableFrame) (name : String) (old : VariableMeta) (m2 : Bool)
    (hv : ctx.«variables» = f :: fs)
    (_hold : f.getVar name = some old) :
    (ctx.declare_variable name m2).«variables»
      = { f with «variables» := (name, ⟨f.stack_size, m2⟩) :: f.«variables» } :: fs
  ∧ VariableStack.is_mutable (ctx.declare_variable name m2).«variables» name = some m2
  ∧ VariableStack.get_offset (ctx.declare_variable name m2).«variables» name = some 0
  ∧ ((ctx.declare_variable name m2).«variables».head?.map VariableFrame.stack_size)
      = some f.stack_size
  ∧ (ctx.declare_variable name m2).set_variable name "rax"
      = if m2 then .ok "    mov qword [rsp + 0], rax\n"
        else .error (.ChangedImmutableVariable name) := by
  have h1 : (ctx.declare_variable name m2).«variables»
      = { f with «variables» := (name, ⟨f.stack_size, m2⟩) :: f.«variables» } :: fs := by
    simp [Context.declare_variable, hv, VariableStack.declare_variable,
      VariableFrame.insertVar]
  have h2 : VariableStack.is_mutable (ctx.declare_variable name m2).«variables» name
      = some m2 := by
    simp [h1, VariableStack.is_mutable, VariableFrame.getVar, List.find?]
  have h3 : VariableStack.get_offset (ctx.declare_variable name m2).«variables» name
      = some 0 := by
    simp [h1, VariableStack.get_offset, VariableStack.get_offsetAux,
      VariableFrame.getVar, List.find?]
  refine ⟨h1, h2, h3, by simp [h1], ?_⟩
  cases m2 with
  | false =>
    simp [Context.set_variable, h2, h3]
  | true =>
    simp [Context.set_variable, h2, h3]
    all_goals decide

/-- Witness for C10: redeclaring `x` (previously immutable at offset 1) as
mutable in a frame of size 2. -/
theorem c10_shadowing_in_frame_witness :
    (({ Context.new ⟨[]⟩ with
        «variables» := [⟨2, [("x", ⟨1, false⟩)]⟩] } : Context).declare_variable "x" true).«variables»
      = [⟨2, [("x", ⟨2, true⟩), ("x", ⟨1, false⟩)]⟩]
  ∧ VariableStack.is_mutable
      (({ Context.new ⟨[]⟩ with
          «variables» := [⟨2, [("x", ⟨1, false⟩)]⟩] } : Context).declare_variable "x" true).«variables»
      "x" = some true
  ∧ VariableStack.get_offset
      (({ Context.new ⟨[]⟩ with
          «variables» := [⟨2, [("x", ⟨1, false⟩)]⟩] } : Context).declare_variable "x" true).«variables»
      "x" = some 0
  ∧ (({ Context.new ⟨[]⟩ with
        «variables» := [⟨2, [("x", ⟨1, false⟩)]⟩] } : Context).declare_variable "x" true).set_variable
      "x" "rax" = .ok "    mov qword [rsp + 0], rax\n" := by
  have h := c10_shadowing_in_frame
    ({ Context.new ⟨[]⟩ with «variables» := [⟨2, [("x", ⟨1, false⟩)]⟩] } : Context)
    ⟨2, [("x", ⟨1, false⟩)]⟩ [] "x" ⟨1, false⟩ true rfl rfl
  exact ⟨h.1, h.2.1, h.2.2.1, h.2.2.2.2⟩

end Beryllium

namespace Beryllium

/-! ## Claim C2 -/

/-- The frame-stack effect of one `Context::push`: bump the top frame's
size, creating a size-1 frame when the scope stack is empty. -/
def bumpFrames : List VariableFrame → List VariableFrame
  | [] => [VariableFrame.with_size 1]
  | f :: rest => { f with stack_size := f.stack_size + 1 } :: rest

/-- `Context::push` in closed form. -/
theorem push_eq (ctx : Context) (v : String) :
    ctx.push v = ("    push " ++ v ++ "\n",
      { ctx with
        stack_size := ctx.stack_size + 1,
        «variables» := bumpFrames ctx.«variables» }) := by
  cases h : ctx.«variables» <;> simp [Context.push, bumpFrames, h]

/-- The expressions whose codegen touches the context only through
`push`/`pop`: literals, declared identifiers, arithmetic and comparisons.
(Compound assignments, function calls, blocks, `if`, `loop` and `while`
are exactly the variants excluded by the amended claim.) -/
inductive SimpleExpr : Expr → Prop
  | intLit (s : String) : SimpleExpr (.IntegerLiteral s)
  | ident (s : String) : SimpleExpr (.Identifier s)
  | add {a b : Expr} : SimpleExpr a → SimpleExpr b → SimpleExpr (.Add a b)
  | sub {a b : Expr} : SimpleExpr a → SimpleExpr b → SimpleExpr (.Sub a b)
  | mul {a b : Expr} : SimpleExpr a → SimpleExpr b → SimpleExpr (.Mul a b)
  | div {a b : Expr} : SimpleExpr a → SimpleExpr b → SimpleExpr (.Div a b)
  | mod {a b : Expr} : SimpleExpr a → SimpleExpr b → SimpleExpr (.Mod a b)
  | eq {a b : Expr} : SimpleExpr a → SimpleExpr b → SimpleExpr (.Equality a b)
  | ne {a b : Expr} : SimpleExpr a → SimpleExpr b → SimpleExpr (.NonEquality a b)
  | lt {a b : Expr} : SimpleExpr a → SimpleExpr b → SimpleExpr (.Less a b)
  | le {a b : Expr} : SimpleExpr a → SimpleExpr b → SimpleExpr (.LessEq a b)
  | gt {a b : Expr} : SimpleExpr a → SimpleExpr b → SimpleExpr (.Greater a b)
  | ge {a b : Expr} : SimpleExpr a → SimpleExpr b → SimpleExpr (.GreaterEq a b)

/-- The frame stack left by two pushes followed by the two pops of
`prepare_binop_registers`. -/
def binopFrames : List VariableFrame → List VariableFrame
  | [] => [⟨0, []⟩]
  | f :: rest => f :: rest

/-- `prepare_binop_registers` leaves the stack-height counter where it
was, given that both operands push exactly one slot. -/
theorem prepareBinop_effect {a b : Expr}
    (iha : ∀ ctx code ctx', codegenExpr a ctx = .ok code ctx' →
      ctx' = { ctx with
        stack_size := ctx.stack_size + 1, «variables» := bumpFrames ctx.«variables» })
    (ihb : ∀ ctx code ctx', codegenExpr b ctx = .ok code ctx' →
      ctx' = { ctx with
        stack_size := ctx.stack_size + 1, «variables» := bumpFrames ctx.«variables» }) :
    ∀ ctx s c2, prepareBinopRegisters ctx a b = .ok s c2 →
      c2 = { ctx with «variables» := binopFrames ctx.«variables» } := by
  intro ctx s c2 h
  unfold prepareBinopRegisters at h
  cases ha : codegenExpr a ctx with
  | err e c => rw [ha] at h; simp [CgResult.then] at h
  | panic => rw [ha] at h; simp [CgResult.then] at h
  | ok ca c1 =>
    have e1 := iha _ _ _ ha
    subst e1
    rw [ha] at h
    simp only [CgResult.then] at h
    cases hb : codegenExpr b
        { ctx with
          stack_size := ctx.stack_size + 1,
          «variables» := bumpFrames ctx.«variables» } with
    | err e c => rw [hb] at h; simp [CgResult.then] at h
    | panic => rw [hb] at h; simp [CgResult.then] at h
    | ok cb c2' =>
      have e2 := ihb _ _ _ hb
      subst e2
      rw [hb] at h
      simp only [CgResult.then] at h
      cases hv : ctx.«variables» with
      | nil =>
        simp [hv, bumpFrames, VariableFrame.with_size, Context.pop,
          cgOfOption, CgResult.then, binopFrames] at h
        simp [binopFrames, hv, ← h.2]
      | cons f rest =>
        simp [hv, bumpFrames, Context.pop, cgOfOption, CgResult.then, binopFrames] at h
        simp [binopFrames, hv, ← h.2]

end Beryllium

namespace Beryllium

/-- Codegen of a simple expression adds exactly one slot: the counter goes
up by 1 and the top frame grows by 1 (a fresh size-1 frame if there was
none). -/
theorem simpleExpr_effect {e : Expr} (hs : SimpleExpr e) :
    ∀ ctx code ctx', codegenExpr e ctx = .ok code ctx' →
      ctx' = { ctx with
        stack_size := ctx.stack_size + 1,
        «variables» := bumpFrames ctx.«variables» } := by
  induction hs with
  | intLit s =>
    intro ctx code ctx' h
    simp only [codegenExpr, push_eq] at h
    simp at h
    exact h.2.symm
  | ident s =>
    intro ctx code ctx' h
    simp only [codegenExpr, Context.get_variable] at h
    cases hg : VariableStack.get_offset ctx.«variables» s with
    | none => rw [hg] at h; simp at h
    | some off =>
      rw [hg] at h
      simp only [Option.map_some', push_eq] at h
      simp at h
      exact h.2.symm
  | _ =>
    rename_i a b ha hb iha ihb
    intro ctx code ctx' h
    simp only [codegenExpr] at h
    cases hp : prepareBinopRegisters ctx a b with
    | err e c => rw [hp] at h; simp [CgResult.then] at h
    | panic => rw [hp] at h; simp [CgResult.then] at h
    | ok s c2 =>
      have e2 := prepareBinop_effect iha ihb _ _ _ hp
      subst e2
      rw [hp] at h
      simp only [CgResult.then, push_eq] at h
      simp at h
      cases hv : ctx.«variables» <;>
        simp [hv, binopFrames, bumpFrames, VariableFrame.with_size, ← h.2]

end Beryllium

namespace Beryllium

/-- Codegen of a compound assignment with a simple right-hand side leaves
the stack-height counter unchanged (one push for the value, one for the
old value, two pops; the store emits no push). -/
theorem assign_effect {e : Expr} (hs : SimpleExpr e) (id : String) :
    ∀ ctx code ctx',
      (codegenExpr (.AddAssign id e) ctx = .ok code ctx' → ctx'.stack_size = ctx.stack_size)
    ∧ (codegenExpr (.SubAssign id e) ctx = .ok code ctx' → ctx'.stack_size = ctx.stack_size)
    ∧ (codegenExpr (.MulAssign id e) ctx = .ok code ctx' → ctx'.stack_size = ctx.stack_size)
    ∧ (codegenExpr (.DivAssign id e) ctx = .ok code ctx' → ctx'.stack_size = ctx.stack_size)
    ∧ (codegenExpr (.ModAssign id e) ctx = .ok code ctx' → ctx'.stack_size = ctx.stack_size) := by
  intro ctx code ctx'
  refine ⟨?_, ?_, ?_, ?_, ?_⟩ <;>
  · intro h
    simp only [codegenExpr] at h
    cases ha : codegenExpr e ctx with
    | err er c => rw [ha] at h; simp [CgResult.then] at h
    | panic => rw [ha] at h; simp [CgResult.then] at h
    | ok c1 ctx1 =>
      have e1 := simpleExpr_effect hs _ _ _ ha
      subst e1
      rw [ha] at h
      simp only [CgResult.then, Context.get_variable] at h
      cases hg : VariableStack.get_offset (bumpFrames ctx.«variables») id with
      | none => rw [hg] at h; simp at h
      | some off =>
        rw [hg] at h
        simp only [Option.map_some', push_eq] at h
        cases hv : ctx.«variables» with
        | nil =>
          rw [hv] at hg
          simp [bumpFrames, VariableFrame.with_size, VariableStack.get_offset,
            VariableStack.get_offsetAux, VariableFrame.getVar] at hg
        | cons f rest =>
          simp only [hv, bumpFrames] at h
          simp only [Context.pop, cgOfOption, CgResult.then] at h
          simp at h
          split at h
          · simp at h
          · simp at h
            rw [← h.2]

/-- C2 (amended): every arithmetic, comparison, integer-literal or
declared-identifier expression in value position increases the Context's
symbolic stack-height counter by exactly 1; every compound assignment
leaves it unchanged.  (The original blanket claim over all expressions is
refuted by `c2_stack_height_counterexample`.) -/
theorem c2_stack_height_effects (ctx : Context) (e : Expr) (hs : SimpleExpr e) :
    (∀ code ctx', codegenExpr e ctx = .ok code ctx' →
        ctx'.stack_size = ctx.stack_size + 1)
  ∧ ∀ id code ctx',
      (codegenExpr (.AddAssign id e) ctx = .ok code ctx' → ctx'.stack_size = ctx.stack_size)
    ∧ (codegenExpr (.SubAssign id e) ctx = .ok code ctx' → ctx'.stack_size = ctx.stack_size)
    ∧ (codegenExpr (.MulAssign id e) ctx = .ok code ctx' → ctx'.stack_size = ctx.stack_size)
    ∧ (codegenExpr (.DivAssign id e) ctx = .ok code ctx' → ctx'.stack_size = ctx.stack_size)
    ∧ (codegenExpr (.ModAssign id e) ctx = .ok code ctx' → ctx'.stack_size = ctx.stack_size) :=
  ⟨fun _ _ h => by rw [simpleExpr_effect hs _ _ _ h],
   fun id code ctx' => assign_effect hs id ctx code ctx'⟩

/-- Counterexample to C2 as stated: a value-position expression (the empty
block, as the value of a `let`) that leaves the counter unchanged instead
of raising it by 1, and a statement-position expression (a bare integer
literal) that raises it by 1 instead of leaving it unchanged. -/
theorem c2_stack_height_counterexample :
    codegenStmt (.Let "x" (.Block []) false) (Context.new ⟨[]⟩)
      = .ok "    add rsp, 0\n" ⟨0, [⟨0, [("x", ⟨0, false⟩)]⟩], [], [], ⟨[]⟩⟩
  ∧ (0 : Nat) ≠ 0 + 1
  ∧ codegenStmt (.ExprStmt (.IntegerLiteral "1")) (Context.new ⟨[]⟩)
      = .ok "    push 1\n" ⟨1, [⟨1, []⟩], [], [], ⟨[]⟩⟩
  ∧ (1 : Nat) ≠ 0 := by
  refine ⟨?_, by decide, ?_, by decide⟩
  · simp [codegenStmt, codegenExpr, codegenStmts, Context.enter, Context.exit,
      cgOfOption, CgResult.then, Context.new, Context.declare_variable,
      VariableStack.declare_variable, VariableFrame.default, VariableFrame.insertVar]
    all_goals decide
  · simp [codegenStmt, codegenExpr, Context.push, Context.new, VariableFrame.with_size]

/-- Witness for the amended C2: `1 + 2` raises the counter from 0 to 1;
`x += 1` over a mutable `x` leaves it at 1. -/
theorem c2_stack_height_effects_witness :
    (codegenExpr (.Add (.IntegerLiteral "1") (.IntegerLiteral "2")) (Context.new ⟨[]⟩)
        = .ok "    push 1\n    push 2\n    pop rbx\n    pop rax\n    add rax, rbx\n    push rax\n"
            ⟨1, [⟨1, []⟩], [], [], ⟨[]⟩⟩
      ∧ (1 : Nat) = 0 + 1)
  ∧ (codegenExpr (.AddAssign "x" (.IntegerLiteral "1"))
        ({ Context.new ⟨[]⟩ with
            stack_size := 1,
            «variables» := [⟨1, [("x", ⟨1, true⟩)]⟩] } : Context)
      = .ok "    push 1\n    push qword [rsp + 8]\n    pop rax\n    pop rbx\n    add rax, rbx\n    mov qword [rsp + 0], rax\n"
          ⟨1, [⟨1, [("x", ⟨1, true⟩)]⟩], [], [], ⟨[]⟩⟩
      ∧ (1 : Nat) = 1) := by
  have h1 : codegenExpr (.Add (.IntegerLiteral "1") (.IntegerLiteral "2")) (Context.new ⟨[]⟩)
      = .ok "    push 1\n    push 2\n    pop rbx\n    pop rax\n    add rax, rbx\n    push rax\n"
          ⟨1, [⟨1, []⟩], [], [], ⟨[]⟩⟩ := by
    simp [codegenExpr, prepareBinopRegisters, Context.new, Context.push, Context.pop,
      cgOfOption, CgResult.then, VariableFrame.with_size]
  have h2 : codegenExpr (.AddAssign "x" (.IntegerLiteral "1"))
        ({ Context.new ⟨[]⟩ with
            stack_size := 1,
            «variables» := [⟨1, [("x", ⟨1, true⟩)]⟩] } : Context)
      = .ok "    push 1\n    push qword [rsp + 8]\n    pop rax\n    pop rbx\n    add rax, rbx\n    mov qword [rsp + 0], rax\n"
          ⟨1, [⟨1, [("x", ⟨1, true⟩)]⟩], [], [], ⟨[]⟩⟩ := by
    simp [codegenExpr, Context.new, Context.push, Context.pop, Context.get_variable,
      Context.set_variable, cgOfOption, CgResult.then, VariableStack.get_offset,
      VariableStack.get_offsetAux, VariableStack.is_mutable, VariableFrame.getVar,
      List.find?]
    all_goals decide
  refine ⟨⟨h1, ?_⟩, ⟨h2, rfl⟩⟩
  exact (c2_stack_height_effects (Context.new ⟨[]⟩) _
    (SimpleExpr.add (SimpleExpr.intLit "1") (SimpleExpr.intLit "2"))).1 _ _ h1

end Beryllium

namespace Beryllium

/-! ## Claim C3 -/

/-- A token for an integer literal, at the default location (the parser
never inspects locations of well-formed arithmetic). -/
def intTok (s : String) : Token := ⟨.integerLiteral s, Location.start⟩

/-- A `+` or `-` token. -/
def addOpTok (neg : Bool) : Token :=
  ⟨.symbol (if neg then .Minus else .Plus), Location.start⟩

/-- The AST node built for a `+` or `-` operator. -/
def addNode (neg : Bool) (a b : Expr) : Expr :=
  if neg then .Sub a b else .Add a b

/-- A multiplicative operator. -/
inductive MulOp where
  | star | slash | percent
deriving DecidableEq, Repr

/-- A `*`, `/` or `%` token. -/
def mulOpTok : MulOp → Token
  | .star => ⟨.symbol .Star, Location.start⟩
  | .slash => ⟨.symbol .Slash, Location.start⟩
  | .percent => ⟨.symbol .Percent, Location.start⟩

/-- The AST node built for a `*`, `/` or `%` operator. -/
def mulNode : MulOp → Expr → Expr → Expr
  | .star, a, b => .Mul a b
  | .slash, a, b => .Div a b
  | .percent, a, b => .Mod a b

/-- C3 (amended): the `map_left` fixup makes chains of *three* operands
left-associative — `x o1 y o2 z` parses as `(x o1 y) o2 z` for every pair
of additive operators and every pair of multiplicative operators — but it
only rotates the outermost node, so a four-operand chain associates the
inner tail to the right: `1 - 2 - 3 - 4` parses as `(1 - (2 - 3)) - 4`
(see the counterexample for the refutation of the any-length claim). -/
theorem c3_left_assoc_three_operands (x y z : String) (o1 o2 : Bool) (m1 m2 : MulOp) :
    (∃ st, runParseExpr 50 [intTok x, addOpTok o1, intTok y, addOpTok o2, intTok z]
      = .ok (addNode o2 (addNode o1 (.IntegerLiteral x) (.IntegerLiteral y))
          (.IntegerLiteral z)) st)
  ∧ (∃ st, runParseExpr 50 [intTok x, mulOpTok m1, intTok y, mulOpTok m2, intTok z]
      = .ok (mulNode m2 (mulNode m1 (.IntegerLiteral x) (.IntegerLiteral y))
          (.IntegerLiteral z)) st)
  ∧ (∃ st, runParseExpr 50 [intTok "1", addOpTok true, intTok "2", addOpTok true,
        intTok "3", addOpTok true, intTok "4"]
      = .ok (.Sub (.Sub (.IntegerLiteral "1") (.Sub (.IntegerLiteral "2") (.IntegerLiteral "3")))
          (.IntegerLiteral "4")) st) := by
  refine ⟨?_, ?_, ⟨_, rfl⟩⟩
  · cases o1 <;> cases o2 <;> exact ⟨_, rfl⟩
  · cases m1 <;> cases m2 <;> exact ⟨_, rfl⟩

/-- Counterexample to C3 as stated: the parser's tree for `1 - 2 - 3 - 4`
is `(1 - (2 - 3)) - 4`, not the fully left-associative
`((1 - 2) - 3) - 4`. -/
theorem c3_left_assoc_counterexample :
    runParseExpr 50 [intTok "1", addOpTok true, intTok "2", addOpTok true,
        intTok "3", addOpTok true, intTok "4"]
      = .ok (.Sub (.Sub (.IntegerLiteral "1") (.Sub (.IntegerLiteral "2") (.IntegerLiteral "3")))
          (.IntegerLiteral "4")) ⟨⟨[], Location.start⟩, []⟩
  ∧ (Expr.Sub (.Sub (.IntegerLiteral "1") (.Sub (.IntegerLiteral "2") (.IntegerLiteral "3")))
        (.IntegerLiteral "4")
      ≠ Expr.Sub (.Sub (.Sub (.IntegerLiteral "1") (.IntegerLiteral "2")) (.IntegerLiteral "3"))
        (.IntegerLiteral "4")) :=
  ⟨rfl, by simp⟩

/-! ## Claim C4 -/

/-- C4: the parser's failure modes at the failing input.  On the truncated
input `fn` the parser does *not* return `UnexpectedToken` or a
`TokenizerError`: it panics through `Option::expect("an identifier")` at
end of input.  On a grammar mismatch (`let` at item level) it does return
`UnexpectedToken` with the first mismatching token, and a tokenizer error
(`~`) is propagated; the first error aborts parsing. -/
theorem c4_truncated_input_panics :
    runParse 100 "fn" = .panicEOF "an identifier"
  ∧ runParse 100 "let" = .error (.UnexpectedToken ⟨.keyword .Let, Location.start⟩)
  ∧ runParse 100 "fn f() ~"
      = .error (.TokenizerError (.UnrecognizedCharacter '~')) :=
  ⟨rfl, rfl, rfl⟩

end Beryllium

namespace Beryllium

/-! ## Claim C7 -/

/-- The reserved words of the keyword table. -/
def keywordStrings : List String :=
  ["exit", "let", "mut", "if", "else", "loop", "while", "break", "continue", "fn", "return"]

set_option maxHeartbeats 1000000 in
/-- `classifyWord` produces either the word back as an identifier or some
keyword. -/
theorem classifyWord_cases (w : String) :
    classifyWord w = .identifier w ∨ ∃ k, classifyWord w = .keyword k := by
  by_cases h1 : w = "exit"
  case pos => exact .inr ⟨Keyword.Exit, by simp [classifyWord, h1]⟩
  by_cases h2 : w = "let"
  case pos => exact .inr ⟨Keyword.Let, by simp [classifyWord, h1, h2]⟩
  by_cases h3 : w = "mut"
  case pos => exact .inr ⟨Keyword.Mut, by simp [classifyWord, h1, h2, h3]⟩
  by_cases h4 : w = "if"
  case pos => exact .inr ⟨Keyword.If, by simp [classifyWord, h1, h2, h3, h4]⟩
  by_cases h5 : w = "else"
  case pos => exact .inr ⟨Keyword.Else, by simp [classifyWord, h1, h2, h3, h4, h5]⟩
  by_cases h6 : w = "loop"
  case pos => exact .inr ⟨Keyword.Loop, by simp [classifyWord, h1, h2, h3, h4, h5, h6]⟩
  by_cases h7 : w = "while"
  case pos => exact .inr ⟨Keyword.While, by simp [classifyWord, h1, h2, h3, h4, h5, h6, h7]⟩
  by_cases h8 : w = "break"
  case pos => exact .inr ⟨Keyword.Break, by simp [classifyWord, h1, h2, h3, h4, h5, h6, h7, h8]⟩
  by_cases h9 : w = "continue"
  case pos => exact .inr ⟨Keyword.Continue, by simp [classifyWord, h1, h2, h3, h4, h5, h6, h7, h8, h9]⟩
  by_cases h10 : w = "fn"
  case pos => exact .inr ⟨Keyword.Fn, by simp [classifyWord, h1, h2, h3, h4, h5, h6, h7, h8, h9, h10]⟩
  by_cases h11 : w = "return"
  case pos => exact .inr ⟨Keyword.Return, by simp [classifyWord, h1, h2, h3, h4, h5, h6, h7, h8, h9, h10, h11]⟩
  exact .inl (by simp [classifyWord, h1, h2, h3, h4, h5, h6, h7, h8, h9, h10, h11])

/-- Reserved words classify as keywords. -/
theorem classifyWord_of_mem (w : String) (hm : w ∈ keywordStrings) :
    ∃ k, classifyWord w = .keyword k := by
  simp only [keywordStrings, List.mem_cons, List.not_mem_nil, or_false] at hm
  rcases hm with rfl | rfl | rfl | rfl | rfl | rfl | rfl | rfl | rfl | rfl | rfl <;>
    exact ⟨_, rfl⟩

/-- `classifyWord` yields `identifier` exactly for the non-keywords,
verbatim. -/
theorem classifyWord_eq_identifier {w s : String} (h : classifyWord w = .identifier s) :
    s = w ∧ w ∉ keywordStrings := by
  by_cases hm : w ∈ keywordStrings
  · obtain ⟨k, hk⟩ := classifyWord_of_mem w hm
    rw [hk] at h
    exact absurd h (by simp)
  · rcases classifyWord_cases w with hcw | ⟨k, hk⟩
    · rw [hcw] at h
      injection h with h2
      exact ⟨h2.symm, hm⟩
    · rw [hk] at h
      simp at h

/-- `classifyWord` never yields an integer literal. -/
theorem classifyWord_ne_intLit (w s : String) : classifyWord w ≠ .integerLiteral s := by
  rcases classifyWord_cases w with hcw | ⟨k, hk⟩
  · simp [hcw]
  · simp [hk]

/-- The head of `dropWhile p l` fails `p`. -/
theorem head?_dropWhile (p : Char → Bool) (l : List Char) :
    ∀ d, (l.dropWhile p).head? = some d → p d = false := by
  induction l with
  | nil => intro d h; simp at h
  | cons a l ih =>
    intro d h
    rw [List.dropWhile_cons] at h
    by_cases hp : p a
    · rw [if_pos hp] at h
      exact ih d h
    · rw [if_neg hp] at h
      simp at h
      rw [← h]
      exact Bool.eq_false_iff.mpr hp

/-- A list contains its optional head. -/
theorem mem_of_head? {α : Type} (l : List α) (d : α) (h : l.head? = some d) : d ∈ l := by
  cases l <;> simp_all

/-- Below code point 128, `char::is_numeric` is exactly `[0-9]`. -/
theorem rsIsNumeric_ascii (c : Char) (h : c.toNat < 128) : rsIsNumeric c = c.isDigit := by
  have h2 : (c.toNat == 0xB2) = false := by simp; omega
  have h3 : (c.toNat == 0xB3) = false := by simp; omega
  have h4 : (c.toNat == 0xB9) = false := by simp; omega
  have h5 : (c.toNat == 0xBC) = false := by simp; omega
  have h6 : (c.toNat == 0xBD) = false := by simp; omega
  have h7 : (c.toNat == 0xBE) = false := by simp; omega
  simp [rsIsNumeric, h2, h3, h4, h5, h6, h7]

/-- Below code point 128, `char::is_alphabetic` is exactly `[A-Za-z]`. -/
theorem rsIsAlphabetic_ascii (c : Char) (h : c.toNat < 128) : rsIsAlphabetic c = c.isAlpha := by
  have h2 : (c.toNat == 0xAA) = false := by simp; omega
  have h3 : (c.toNat == 0xB5) = false := by simp; omega
  have h4 : (c.toNat == 0xBA) = false := by simp; omega
  have h5 : (0xC0 ≤ c.toNat) = False := by simp; omega
  simp [rsIsAlphabetic, h2, h3, h4, h5]

/-- Below code point 128, the identifier-continuation class is exactly
`[A-Za-z0-9_]`. -/
theorem isIdentChar_ascii (c : Char) (h : c.toNat < 128) :
    isIdentChar c = (c.isAlpha || c.isDigit || c = '_') := by
  simp [isIdentChar, rsIsAlphanumeric, rsIsAlphabetic_ascii c h, rsIsNumeric_ascii c h,
    Bool.or_assoc]

end Beryllium

namespace Beryllium

/-- Forward half of C7, for ASCII inputs: every `IntegerLiteral` token the
lexer emits is a maximal non-empty run of `[0-9]`, and every `Identifier`
token is a maximal word over `[A-Za-z0-9_]` starting with `[A-Za-z_]` that
is not a reserved keyword. -/
theorem lexNext_token_classes :
    ∀ (src : List Char) (loc : Location), (∀ c ∈ src, c.toNat < 128) →
    ∀ t st', lexNext src loc = .ok (some (t, st')) →
      (∀ s, t.data = .integerLiteral s →
          s.data ≠ [] ∧ (∀ c ∈ s.data, c.isDigit = true)
          ∧ ∀ d, st'.source.head? = some d → d.isDigit = false)
      ∧ (∀ s, t.data = .identifier s →
          (∃ c0 r0, s.data = c0 :: r0 ∧ (c0.isAlpha = true ∨ c0 = '_'))
          ∧ (∀ c ∈ s.data, c.isAlpha = true ∨ c.isDigit = true ∨ c = '_')
          ∧ s ∉ keywordStrings
          ∧ ∀ d, st'.source.head? = some d →
              ¬(d.isAlpha = true ∨ d.isDigit = true ∨ d = '_')) := by
  intro src
  induction src with
  | nil =>
    intro loc ha t st' h
    simp [lexNext] at h
  | cons c rest ih =>
    intro loc ha t st' h
    have hc : c.toNat < 128 := ha c (List.mem_cons_self c rest)
    simp only [lexNext] at h
    split at h
    · -- identifier / keyword branch
      rename_i halpha
      simp only [TokenStream.lexIdentifier] at h
      simp only [Except.ok.injEq, Option.some.injEq, Prod.mk.injEq] at h
      have hic : isIdentChar c = true := by
        simp only [Bool.or_eq_true, decide_eq_true_eq] at halpha
        rcases halpha with h1 | h1 <;> simp [isIdentChar, rsIsAlphanumeric, h1]
      constructor
      · intro s hs
        rw [← h.1] at hs
        exact absurd hs (classifyWord_ne_intLit _ s)
      · intro s hs
        rw [← h.1] at hs
        obtain ⟨hsw, hkw⟩ := classifyWord_eq_identifier hs
        subst hsw
        have hdata : (String.mk ((c :: rest).takeWhile isIdentChar)).data
            = (c :: rest).takeWhile isIdentChar := rfl
        refine ⟨?_, ?_, hkw, ?_⟩
        · refine ⟨c, rest.takeWhile isIdentChar, ?_, ?_⟩
          · rw [hdata, List.takeWhile_cons_of_pos hic]
          · have := rsIsAlphabetic_ascii c hc
            simp only [Bool.or_eq_true, decide_eq_true_eq] at halpha
            rcases halpha with h1 | h1
            · exact .inl (by rw [← this]; exact h1)
            · exact .inr h1
        · intro x hx
          rw [hdata] at hx
          have hpx := List.mem_takeWhile_imp hx
          have hxm : x ∈ c :: rest := (List.takeWhile_sublist isIdentChar).subset hx
          have hxa : x.toNat < 128 := ha x hxm
          rw [isIdentChar_ascii x hxa] at hpx
          simpa [or_assoc] using hpx
        · intro d hd
          rw [← h.2] at hd
          simp only at hd
          have hpd := head?_dropWhile isIdentChar (c :: rest) d hd
          have hdm : d ∈ c :: rest :=
            (List.dropWhile_sublist isIdentChar).subset (mem_of_head? _ d hd)
          have hda : d.toNat < 128 := ha d hdm
          rw [isIdentChar_ascii d hda] at hpd
          intro hcon
          rcases hcon with h1 | h1 | h1 <;> simp [h1] at hpd
    · -- remaining branches
      split at h
      · -- integer-literal branch
        rename_i hnum
        simp only [TokenStream.lexNumber] at h
        simp only [Except.ok.injEq, Option.some.injEq, Prod.mk.injEq] at h
        constructor
        · intro s hs
          rw [← h.1] at hs
          simp only [TokenData.integerLiteral.injEq] at hs
          subst hs
          have hdata : (String.mk ((c :: rest).takeWhile rsIsNumeric)).data
              = (c :: rest).takeWhile rsIsNumeric := rfl
          refine ⟨?_, ?_, ?_⟩
          · rw [hdata, List.takeWhile_cons_of_pos hnum]
            simp
          · intro x hx
            rw [hdata] at hx
            have hpx := List.mem_takeWhile_imp hx
            have hxm : x ∈ c :: rest := (List.takeWhile_sublist rsIsNumeric).subset hx
            have hxa : x.toNat < 128 := ha x hxm
            rw [rsIsNumeric_ascii x hxa] at hpx
            exact hpx
          · intro d hd
            rw [← h.2] at hd
            simp only at hd
            have hpd := head?_dropWhile rsIsNumeric (c :: rest) d hd
            have hdm : d ∈ c :: rest :=
              (List.dropWhile_sublist rsIsNumeric).subset (mem_of_head? _ d hd)
            have hda : d.toNat < 128 := ha d hdm
            rw [rsIsNumeric_ascii d hda] at hpd
            exact hpd
        · intro s hs
          rw [← h.1] at hs
          simp at hs
      · -- remaining branches
        split at h
        · -- whitespace branch
          exact ih (consumeChar loc c) (fun x hx => ha x (List.mem_cons_of_mem _ hx)) t st' h
        · -- symbol branch
          cases hsym : TokenStream.lexSymbol ⟨c :: rest, loc⟩ with
          | error e => rw [hsym] at h; simp at h
          | ok p =>
            rw [hsym] at h
            simp only [Except.ok.injEq, Option.some.injEq, Prod.mk.injEq] at h
            constructor
            · intro s hs
              rw [← h.1] at hs
              simp at hs
            · intro s hs
              rw [← h.1] at hs
              simp at hs

end Beryllium

namespace Beryllium

/-- The ASCII identifier-continuation class `[A-Za-z0-9_]` named by the
claim; below code point 128 it coincides with `isIdentChar`. -/
def asciiIdentChar (c : Char) : Bool :=
  c.isAlpha || c.isDigit || c = '_'

/-- `takeWhile` only looks at predicate values on the list's members. -/
theorem takeWhile_congr {α : Type} (p q : α → Bool) :
    ∀ (l : List α), (∀ x ∈ l, p x = q x) → l.takeWhile p = l.takeWhile q := by
  intro l
  induction l with
  | nil => intro _; rfl
  | cons a l ih =>
    intro h
    have ha := h a (List.mem_cons_self a l)
    simp only [List.takeWhile_cons, ha]
    cases hq : q a
    · rfl
    · simp [ih (fun x hx => h x (List.mem_cons_of_mem a hx))]

/-- `dropWhile` only looks at predicate values on the list's members. -/
theorem dropWhile_congr {α : Type} (p q : α → Bool) :
    ∀ (l : List α), (∀ x ∈ l, p x = q x) → l.dropWhile p = l.dropWhile q := by
  intro l
  induction l with
  | nil => intro _; rfl
  | cons a l ih =>
    intro h
    have ha := h a (List.mem_cons_self a l)
    simp only [List.dropWhile_cons, ha]
    cases hq : q a
    · simp
    · simp [ih (fun x hx => h x (List.mem_cons_of_mem a hx))]

/-- An ASCII digit is not a letter. -/
theorem isAlpha_false_of_isDigit (c : Char) (h : c.isDigit = true) :
    c.isAlpha = false := by
  simp [Char.isDigit, UInt32.le_def, BitVec.le_def] at h
  simp [Char.isAlpha, Char.isUpper, Char.isLower, UInt32.le_def, BitVec.le_def]
  omega

/-- An ASCII digit is not the underscore. -/
theorem ne_underscore_of_isDigit (c : Char) (h : c.isDigit = true) :
    ¬(c = '_') :=
  fun he => absurd h (by rw [he]; decide)

end Beryllium

namespace Beryllium

/-- C7 (amended): restricted to ASCII input the claim's character classes
are exact — the lexer emits an `IntegerLiteral` token exactly for the
maximal non-empty run of `[0-9]` at the cursor, kept as text, and an
`Identifier` token exactly for the maximal word over `[A-Za-z0-9_]`
starting in `[A-Za-z_]` that is not a reserved keyword, never accepting a
character outside these classes into either token kind.  (On general
input the accumulation loops use the Unicode classes `char::is_numeric`
and `char::is_alphanumeric`, which are strictly larger than the ASCII
classes the claim names — see the counterexample.) -/
theorem c7_ascii_token_classes (src : List Char) (loc : Location)
    (hascii : ∀ c ∈ src, c.toNat < 128) :
    (∀ t st', lexNext src loc = .ok (some (t, st')) →
      (∀ s, t.data = .integerLiteral s →
          s.data ≠ [] ∧ (∀ c ∈ s.data, c.isDigit = true)
          ∧ ∀ d, st'.source.head? = some d → d.isDigit = false)
      ∧ (∀ s, t.data = .identifier s →
          (∃ c0 r0, s.data = c0 :: r0 ∧ (c0.isAlpha = true ∨ c0 = '_'))
          ∧ (∀ c ∈ s.data, c.isAlpha = true ∨ c.isDigit = true ∨ c = '_')
          ∧ s ∉ keywordStrings
          ∧ ∀ d, st'.source.head? = some d →
              ¬(d.isAlpha = true ∨ d.isDigit = true ∨ d = '_')))
  ∧ (∀ c rest, src = c :: rest → c.isDigit = true →
      lexNext src loc = .ok (some
        (⟨.integerLiteral (String.mk (src.takeWhile Char.isDigit)), loc⟩,
         ⟨src.dropWhile Char.isDigit,
          (src.takeWhile Char.isDigit).foldl consumeChar loc⟩)))
  ∧ (∀ c rest, src = c :: rest → (c.isAlpha = true ∨ c = '_') →
      lexNext src loc = .ok (some
        (⟨classifyWord (String.mk (src.takeWhile asciiIdentChar)), loc⟩,
         ⟨src.dropWhile asciiIdentChar,
          (src.takeWhile asciiIdentChar).foldl consumeChar loc⟩))) := by
  refine ⟨fun t st' h => lexNext_token_classes src loc hascii t st' h, ?_, ?_⟩
  · intro c rest hsrc hdig
    subst hsrc
    have hc : c.toNat < 128 := hascii c (List.mem_cons_self c rest)
    have h1 : rsIsAlphabetic c = false := by
      rw [rsIsAlphabetic_ascii c hc]
      exact isAlpha_false_of_isDigit c hdig
    have h2 : ¬(c = '_') := ne_underscore_of_isDigit c hdig
    have h3 : rsIsNumeric c = true := by
      rw [rsIsNumeric_ascii c hc]
      exact hdig
    have htw : (c :: rest).takeWhile rsIsNumeric
        = (c :: rest).takeWhile Char.isDigit :=
      takeWhile_congr _ _ _ (fun x hx => rsIsNumeric_ascii x (hascii x hx))
    have hdw : (c :: rest).dropWhile rsIsNumeric
        = (c :: rest).dropWhile Char.isDigit :=
      dropWhile_congr _ _ _ (fun x hx => rsIsNumeric_ascii x (hascii x hx))
    simp [lexNext, h1, h2, h3, TokenStream.lexNumber, htw, hdw]
  · intro c rest hsrc hstart
    subst hsrc
    have hc : c.toNat < 128 := hascii c (List.mem_cons_self c rest)
    have h1 : (rsIsAlphabetic c || c = '_') = true := by
      rcases hstart with h | h
      · simp [rsIsAlphabetic_ascii c hc, h]
      · simp [h]
    have hcl : ∀ x ∈ c :: rest, isIdentChar x = asciiIdentChar x := by
      intro x hx
      rw [isIdentChar_ascii x (hascii x hx)]
      rfl
    have htw : (c :: rest).takeWhile isIdentChar
        = (c :: rest).takeWhile asciiIdentChar :=
      takeWhile_congr _ _ _ hcl
    have hdw : (c :: rest).dropWhile isIdentChar
        = (c :: rest).dropWhile asciiIdentChar :=
      dropWhile_congr _ _ _ hcl
    simp [lexNext, h1, TokenStream.lexIdentifier, htw, hdw]

end Beryllium

namespace Beryllium

/-- Concrete instance of the ASCII token-class theorem: on `"let x1"` the
lexer emits the keyword token for the maximal identifier word `let` and
stops at the whitespace. -/
theorem c7_ascii_token_classes_witness :
    lexNext "let x1".data Location.start
      = .ok (some (⟨.keyword .Let, Location.start⟩,
          ⟨[' ', 'x', '1'], ⟨3, 1, 4⟩⟩)) := by
  have h := (c7_ascii_token_classes "let x1".data Location.start
      (by decide)).2.2 'l' ['e', 't', ' ', 'x', '1'] rfl (Or.inl (by decide))
  rw [h]
  rfl

/-- The ASCII reading of the token classes fails on general input: the
superscript-two character U+00B2 is not an ASCII digit, yet the lexer
accepts it as an `IntegerLiteral`, because the accumulation loop uses the
Unicode `char::is_numeric`. -/
theorem c7_ascii_classes_counterexample :
    lexNext ['²'] Location.start
      = .ok (some (⟨.integerLiteral "²", Location.start⟩,
          ⟨[], ⟨1, 1, 2⟩⟩))
    ∧ '²'.isDigit = false :=
  ⟨rfl, rfl⟩

end Beryllium
